import Mathlib

/-!
Verification of the plan state machine of dev-plan-mcp.

This file is a shallow embedding of the core logic of the repository:

* `src/types.ts`           : `VALID_STAGES`, `STAGE_ORDER`
* `src/plan-template.ts`   : `createStageProgress`, `generateSlug`
* `src/plan-updater.ts`    : the `PlanUpdater` class (`updateStage` pipeline:
                             `loadPlan`, `validateStage`, `updatePlanStructure`,
                             `updateStageSection`, `savePlan`,
                             `validatePlanStructure`, `isStageComplete`,
                             `allStagesComplete`)
* `src/workflows.ts`       : `WorkflowManager.getWorkflowSteps` and
                             `WorkflowManager.getNextSteps`
* `src/index.ts`           : the `update_checklist_item` tool handler

YAML documents are modelled by the `Value` inductive; JavaScript objects are
association lists in insertion order (`objGet` reads the first binding,
`setKey` overwrites in place or appends, mirroring property assignment).
File I/O is modelled by passing the file state in and returning the file
state that is on disk after the call.
-/

/-- A YAML / JSON-like value, as produced by `yaml.load`.  Numbers are
modelled as integers (no claim exercises fractional values). -/
inductive Value where
  | vNull : Value
  | vBool (b : Bool) : Value
  | vNum (n : Int) : Value
  | vStr (s : String) : Value
  | vArr (xs : List Value) : Value
  | vObj (fields : List (String × Value)) : Value

/-- A JavaScript object: fields in insertion order. -/
abbrev Obj := List (String × Value)

/-- Property read `o[k]`: first binding wins (object keys are unique in
practice; `yaml.load` never produces duplicates). -/
def objGet : List (String × α) → String → Option α
  | [], _ => none
  | (k', v) :: t, k => if k' = k then some v else objGet t k

/-- Property write `o[k] = v`: overwrite in place, append if absent. -/
def setKey : List (String × α) → String → α → List (String × α)
  | [], k, v => [(k, v)]
  | (k', v') :: t, k, v => if k' = k then (k, v) :: t else (k', v') :: setKey t k v

/-- The object spread `{ ...a, ...b }`: start from `a` and assign every
binding of `b` into it in order. -/
def objMerge (a b : List (String × Value)) : List (String × Value) :=
  b.foldl (fun acc kv => setKey acc kv.1 kv.2) a

/-- `src/types.ts` `VALID_STAGES`. -/
def VALID_STAGES : List String :=
  ["scope_analysis", "context_gathering", "solution_design", "implementation",
   "validation", "documentation", "knowledge_capture"]

/-- `src/types.ts` `STAGE_ORDER` (`Record<StageType, number>`; reading the
record at a key that is not a standard stage gives `undefined`, here `none`). -/
def STAGE_ORDER : String → Option Nat
  | "scope_analysis" => some 0
  | "context_gathering" => some 1
  | "solution_design" => some 2
  | "implementation" => some 3
  | "validation" => some 4
  | "documentation" => some 5
  | "knowledge_capture" => some 6
  | _ => none

/-- `src/plan-template.ts` `createStageProgress`. -/
def createStageProgress : String → Obj
  | "scope_analysis" => [("complete", .vBool false), ("findings", .vObj [])]
  | "context_gathering" => [("complete", .vBool false), ("findings", .vObj [])]
  | "solution_design" =>
      [("complete", .vBool false), ("artifacts", .vObj []), ("checklist", .vArr [])]
  | "implementation" => [("complete", .vBool false), ("changes", .vArr [])]
  | "validation" =>
      [("complete", .vBool false), ("results", .vObj []),
       ("validation_status", .vStr "in_progress"), ("issues_found", .vArr []),
       ("fix_cycles", .vArr [])]
  | "documentation" => [("complete", .vBool false), ("files", .vArr [])]
  | "knowledge_capture" => [("complete", .vBool false), ("learnings", .vObj [])]
  | _ => [("complete", .vBool false), ("data", .vObj []), ("notes", .vArr [])]

/-! ### The plan record and the file store (`src/plan-updater.ts`) -/

/-- The raw plan record as parsed from the YAML file.  `Option` on a field
models presence of the key; `phase` and `progress` may be absent and are
defaulted by `loadPlan`.  Progress entries are stage-progress objects, as
declared by the `Plan` TypeScript interface (`progress: Record<StageType,
StageProgress>`). -/
structure RawPlan where
  task : Option Value := none
  slug : Option Value := none
  workflow : Option Value := none
  phase : Option String := none
  status : Option String := none
  created : Option Value := none
  updated : Option Value := none
  progress : Option (List (String × Obj)) := none

/-- The in-memory plan after `loadPlan` normalisation: `progress` and
`phase` are always present. -/
structure Plan where
  task : Option Value := none
  slug : Option Value := none
  workflow : Option Value := none
  phase : String := "scope_analysis"
  status : Option String := none
  created : Option Value := none
  updated : Option Value := none
  progress : List (String × Obj) := []

/-- State of the plan file on disk. `corrupt` carries the parse-failure
description produced by `yaml.load` (or the non-object check). -/
inductive FileState where
  | missing : FileState
  | corrupt (msg : String) : FileState
  | parsed (rp : RawPlan) : FileState

/-- `UpdateOptions` with the defaults applied by `updateStage`
(`{ force: false, markComplete: true, ...options }`). -/
structure UpdateOptions where
  force : Bool := false
  markComplete : Bool := true
  sectionData : Option (List (String × Value)) := none

/-- The `UpdateResult` object returned by `updateStage`. -/
structure UpdateResult where
  success : Bool
  stage : Option String := none
  updatedAt : Option Value := none
  warnings : Option (List String) := none
  error : Option String := none

/-- `loadPlan` normalisation: `progress = progress || {}` and
`phase = phase || 'scope_analysis'` (the empty string is falsy). -/
def normalizePlan (rp : RawPlan) : Plan :=
  { task := rp.task, slug := rp.slug, workflow := rp.workflow,
    status := rp.status, created := rp.created, updated := rp.updated,
    phase := match rp.phase with
      | some s => if s = "" then "scope_analysis" else s
      | none => "scope_analysis",
    progress := rp.progress.getD [] }

/-- `loadPlan`: read and parse the file; `ENOENT` and parse failures become
the messages thrown by the source. -/
def loadPlan (file : FileState) (planFile : String) : Except String Plan :=
  match file with
  | .missing => .error ("Plan file not found: " ++ planFile)
  | .corrupt msg => .error ("Error loading plan file: " ++ msg)
  | .parsed rp => .ok (normalizePlan rp)

/-! Warning and error message builders, verbatim from `plan-updater.ts`. -/

def customStageWarning (target : String) : String :=
  "Custom stage detected: " ++ target ++
    ". This stage is not in the standard workflow stages."

def cannotValidateWarning (target : String) : String :=
  "Cannot validate stage order for custom stage: " ++ target

def movingBackwardsWarning (cur target : String) : String :=
  "Moving backwards from " ++ cur ++ " to " ++ target

def forcingJumpWarning (target : String) (missing : List String) : String :=
  "Forcing jump to " ++ target ++ " (skipping: " ++
    String.intercalate ", " missing ++ ")"

def stageOrderMsg (target : String) (missing : List String) : String :=
  "Cannot jump to " ++ target ++ ". Missing stages: " ++
    String.intercalate ", " missing ++ ". Use --force to override."

def jumpingWarning (cur target : String) : String :=
  "Jumping from " ++ cur ++ " to " ++ target ++ " (intermediate stages complete)"

def alreadyCompletedWarning : String := "Plan is already marked as completed"

def markedFailedWarning : String := "Plan is marked as failed - updating anyway"

def allCompleteWarning : String := "All stages complete - marking plan as completed"

def statusToActiveWarning : String := "Plan status changed from completed to active"

/-- The V8 `TypeError` message raised by
`this.plan.progress[targetStage].complete = true` when the stage entry is
`undefined`; it surfaces as the caught `error.message`. -/
def setCompleteTypeError : String :=
  "Cannot set properties of undefined (setting \x27complete\x27)"

def missingFieldMsg (field : String) : String :=
  "Missing required field: " ++ field

def invalidProgressMsg (stage : String) : String :=
  "Invalid progress structure for stage " ++ stage ++
    ": missing \x27complete\x27 field"

/-- `isStageComplete`: `this.plan.progress[stage]?.complete === true`. -/
def isStageComplete (progress : List (String × Obj)) (stage : String) : Bool :=
  match objGet progress stage with
  | some fs =>
      match objGet fs "complete" with
      | some (.vBool true) => true
      | _ => false
  | none => false

/-- `allStagesComplete`: `Object.keys(progress).every(isStageComplete)`. -/
def allStagesComplete (progress : List (String × Obj)) : Bool :=
  progress.all (fun e => isStageComplete progress e.1)

/-- The `missingStages` accumulation in `validateStage`: the loop
`for (let i = currentStageIndex; i < targetStageIndex; i++)` pushes
`VALID_STAGES[i]` whenever that stage is present in `progress` (a present
stage-progress object is truthy) and not complete.  The push-loop is
written as a filter over the index range, preserving order. -/
def missingStagesList (progress : List (String × Obj)) (ci ti : Nat) : List String :=
  ((List.range' ci (ti - ci)).filterMap (fun i => VALID_STAGES[i]?)).filter
    (fun st => (objGet progress st).isSome && !(isStageComplete progress st))

/-- The two non-fatal plan-status warnings at the end of `validateStage`. -/
def statusWarnings (p : Plan) (ws : List String) : List String :=
  if p.status = some "completed" then ws ++ [alreadyCompletedWarning]
  else if p.status = some "failed" then ws ++ [markedFailedWarning]
  else ws

/-- The ordering part of `validateStage`, after the custom-stage warning
has been accumulated into `ws`.  When either stage is custom the function
returns early and skips the status warnings, as in the source. -/
def validateStageOrder (p : Plan) (target : String) (force : Bool)
    (ws : List String) : Except String (List String) :=
  match STAGE_ORDER p.phase, STAGE_ORDER target with
  | some ci, some ti =>
      if ti < ci then
        .ok (statusWarnings p (ws ++ [movingBackwardsWarning p.phase target]))
      else if ti > ci + 1 then
        if (missingStagesList p.progress ci ti).length > 0 then
          if force then
            .ok (statusWarnings p
              (ws ++ [forcingJumpWarning target
                (missingStagesList p.progress ci ti)]))
          else .error (stageOrderMsg target (missingStagesList p.progress ci ti))
        else .ok (statusWarnings p (ws ++ [jumpingWarning p.phase target]))
      else .ok (statusWarnings p ws)
  | _, _ =>
      .ok (if !(VALID_STAGES.contains target) then
        ws ++ [cannotValidateWarning target] else ws)

/-- `validateStage`: push the custom-stage warning when the target is
unknown and `force` is not set, then run the ordering checks. -/
def validateStage (p : Plan) (target : String) (force : Bool)
    (ws : List String) : Except String (List String) :=
  validateStageOrder p target force
    (if !(VALID_STAGES.contains target) && !force then
      ws ++ [customStageWarning target] else ws)

/-- The completion-marking loop of `updatePlanStructure`:
`for (let i = 0; i < targetStageIndex; i++)` sets `complete = true` on every
`VALID_STAGES[i]` that is present in `progress` (the target index is at most
6, so the loop never reads past the end of `VALID_STAGES`).  `markStep` is
one iteration of the loop. -/
def markStep (acc : List (String × Obj)) (st : String) : List (String × Obj) :=
  match objGet acc st with
  | some fs => setKey acc st (setKey fs "complete" (.vBool true))
  | none => acc

/-- The loop itself, over `VALID_STAGES[0 : targetStageIndex]`. -/
def markStagesBefore (progress : List (String × Obj)) (ti : Nat) :
    List (String × Obj) :=
  (VALID_STAGES.take ti).foldl markStep progress

/-- The merge policy for one `sectionData` value: when both the existing
value and the new value are non-null non-array objects, spread-merge;
otherwise (`undefined`, `null`, arrays, scalars, mixed types) the new
value replaces the old wholesale. -/
def mergeValue : Option Value → Value → Value
  | some (.vObj a), .vObj b => .vObj (objMerge a b)
  | _, v => v

/-- One iteration of the `Object.entries(sectionData)` loop of
`updateStageSection`. -/
def sectionStep (stage : String) (prog : List (String × Obj))
    (kv : String × Value) : List (String × Obj) :=
  match objGet prog stage with
  | some sp => setKey prog stage (setKey sp kv.1 (mergeValue (objGet sp kv.1) kv.2))
  | none => prog

/-- The `Object.entries(sectionData)` loop of `updateStageSection`, after
the entry for the stage has been ensured. -/
def updateStageSection (progress : List (String × Obj)) (stage : String)
    (sectionData : List (String × Value)) : List (String × Obj) :=
  let progress :=
    if (objGet progress stage).isSome then progress
    else setKey progress stage (createStageProgress stage)
  sectionData.foldl (sectionStep stage) progress

/-- Step 1 of `updatePlanStructure`: the marking loop runs when both
stages are standard and the move is strictly forward. -/
def progAfterMark (p : Plan) (target : String) : List (String × Obj) :=
  match STAGE_ORDER p.phase, STAGE_ORDER target with
  | some ci, some ti => if ti > ci then markStagesBefore p.progress ti else p.progress
  | _, _ => p.progress

/-- Step 2: `updateStageSection` runs only when `sectionData` was given. -/
def progAfterSection (p : Plan) (target : String) (opts : UpdateOptions) :
    List (String × Obj) :=
  match opts.sectionData with
  | some sd => updateStageSection (progAfterMark p target) target sd
  | none => progAfterMark p target

/-- Step 3: `progress[targetStage].complete = true` when `markComplete` is
set; a `TypeError` is thrown when the entry is still absent. -/
def progAfterComplete (p : Plan) (target : String) (opts : UpdateOptions) :
    Except String (List (String × Obj)) :=
  if opts.markComplete then
    match objGet (progAfterSection p target opts) target with
    | some fs =>
        .ok (setKey (progAfterSection p target opts) target
          (setKey fs "complete" (.vBool true)))
    | none => .error setCompleteTypeError
  else .ok (progAfterSection p target opts)

/-- `updatePlanStructure`: mark prior stages when advancing, set the phase,
merge section data, mark the target complete, recompute the status and
refresh the timestamp. -/
def updatePlanStructure (p : Plan) (target : String) (opts : UpdateOptions)
    (ws : List String) (now : String) : Except String (Plan × List String) :=
  match progAfterComplete p target opts with
  | .error e => .error e
  | .ok prog3 =>
      let su : Option String × List String :=
        if allStagesComplete prog3 then (some "completed", ws ++ [allCompleteWarning])
        else if p.status = some "completed" then
          (some "active", ws ++ [statusToActiveWarning])
        else (p.status, ws)
      .ok ({ p with
              phase := target
              progress := prog3
              status := su.1
              updated := some (.vStr now) }, su.2)

/-- `validatePlanStructure`, run by `savePlan` before writing: every
required top-level field must be present (`phase` is always present after
`loadPlan`), and every progress entry must contain a `complete` field.
Progress entries are objects in the model, so only the `complete` check can
fire for them. -/
def validatePlanStructure (p : Plan) : Except String Unit :=
  if p.task.isNone then .error (missingFieldMsg "task")
  else if p.slug.isNone then .error (missingFieldMsg "slug")
  else if p.workflow.isNone then .error (missingFieldMsg "workflow")
  else if p.status.isNone then .error (missingFieldMsg "status")
  else if p.created.isNone then .error (missingFieldMsg "created")
  else if p.updated.isNone then .error (missingFieldMsg "updated")
  else
    match p.progress.find? (fun e => (objGet e.2 "complete").isNone) with
    | some e => .error (invalidProgressMsg e.1)
    | none => .ok ()

/-- Re-embedding of a saved plan as the new file content (the YAML dump /
re-parse round trip in `savePlan` always succeeds on a structured record). -/
def toRaw (p : Plan) : RawPlan :=
  { task := p.task, slug := p.slug, workflow := p.workflow,
    phase := some p.phase, status := p.status, created := p.created,
    updated := p.updated, progress := some p.progress }

/-- The `updateStage` pipeline up to (and including) the pre-save
validation; any `.error` aborts before the file is written. -/
def runUpdate (file : FileState) (planFile target : String)
    (opts : UpdateOptions) (now : String) :
    Except String (Plan × List String) :=
  match loadPlan file planFile with
  | .error e => .error e
  | .ok p =>
      match validateStage p target opts.force [] with
      | .error e => .error e
      | .ok ws =>
          match updatePlanStructure p target opts ws now with
          | .error e => .error e
          | .ok pws =>
              match validatePlanStructure pws.1 with
              | .error e => .error e
              | .ok _ => .ok pws

/-- `updateStage`: returns the `UpdateResult` and the file state after the
call (the file is overwritten only on success). -/
def updateStage (file : FileState) (planFile target : String)
    (opts : UpdateOptions) (now : String) : UpdateResult × FileState :=
  match runUpdate file planFile target opts now with
  | .ok pws =>
      ({ success := true, stage := some target, updatedAt := pws.1.updated,
         warnings := if pws.2.length > 0 then some pws.2 else none },
       .parsed (toRaw pws.1))
  | .error e => ({ success := false, error := some e }, file)

/-! ### Workflow catalog (`src/workflows.ts`) -/

structure WorkflowDefinition where
  description : String
  steps : List String

/-- `WorkflowsConfig`: the named workflows plus the fallback entry. -/
structure WorkflowsConfig where
  workflows : List (String × WorkflowDefinition)
  defaultWorkflow : WorkflowDefinition

/-- `getWorkflowSteps`: `workflows.workflows[workflowType]?.steps` with a
silent fallback to the default steps. -/
def getWorkflowSteps (cfg : WorkflowsConfig) (workflowType : String) :
    List String :=
  match objGet cfg.workflows workflowType with
  | some d => d.steps
  | none => cfg.defaultWorkflow.steps

/-- The record returned by `getNextSteps`.  `currentStep` is an `Option`
because `steps[0]` is `undefined` on an empty step list. -/
structure NextStepsResult where
  currentStep : Option String
  nextStep : Option String
  remainingSteps : List String
  isComplete : Bool
deriving DecidableEq

/-- `const nextIndex = completed ? currentIndex + 1 : currentIndex` (also
the spec's `advanceIndex`). -/
def advanceIdx (completed : Bool) (currentIndex : Nat) : Nat :=
  if completed then currentIndex + 1 else currentIndex

/-- `WorkflowManager.getNextSteps` over an already-resolved step list,
translated clause by clause (`indexOf` returning `-1` becomes `findIdx?`
returning `none`). -/
def getNextStepsFromSteps (steps : List String) (currentPhase : String)
    (completed : Bool) : NextStepsResult :=
  match steps.findIdx? (· = currentPhase) with
  | none =>
      { currentStep := steps[0]?
        nextStep := if steps.length > 1 then steps[1]? else none
        remainingSteps := steps.drop 1
        isComplete := false }
  | some currentIndex =>
      { currentStep := some currentPhase
        nextStep :=
          if completed && advanceIdx completed currentIndex < steps.length then
            steps[advanceIdx completed currentIndex]?
          else if !completed && currentIndex < steps.length - 1 then
            steps[currentIndex + 1]?
          else none
        remainingSteps :=
          if completed then steps.drop (advanceIdx completed currentIndex + 1)
          else steps.drop (currentIndex + 1)
        isComplete := decide (advanceIdx completed currentIndex ≥ steps.length) }

/-- `WorkflowManager.getNextSteps`: resolve the steps, then apply the
clause-by-clause translation. -/
def getNextSteps (cfg : WorkflowsConfig) (workflowType currentPhase : String)
    (completed : Bool) : NextStepsResult :=
  getNextStepsFromSteps (getWorkflowSteps cfg workflowType) currentPhase completed

/-- The reference algorithm for `getNextSteps` as worded by the spec
(section 4.1): this definition follows the spec text, to be compared with
the translation of the source. -/
def specNextSteps (steps : List String) (currentStage : String)
    (currentStageComplete : Bool) : NextStepsResult :=
  match steps.findIdx? (· = currentStage) with
  | none =>
      { currentStep := steps[0]?
        nextStep := steps[1]?
        remainingSteps := steps.drop 1
        isComplete := false }
  | some currentIndex =>
      { currentStep := some currentStage
        nextStep :=
          if currentStageComplete &&
              advanceIdx currentStageComplete currentIndex < steps.length then
            steps[advanceIdx currentStageComplete currentIndex]?
          else if !currentStageComplete && currentIndex + 1 < steps.length then
            steps[currentIndex + 1]?
          else none
        remainingSteps :=
          steps.drop
            ((if currentStageComplete then
                advanceIdx currentStageComplete currentIndex
              else currentIndex) + 1)
        isComplete :=
          decide (advanceIdx currentStageComplete currentIndex ≥ steps.length) }

/-! ### `generateSlug` (`src/plan-template.ts`) -/

/-- ASCII model of `String.prototype.toLowerCase` (non-ASCII case pairs are
not modelled; such characters are removed by the `\w` filter either way). -/
def jsToLower (c : Char) : Char :=
  if h : 65 ≤ c.toNat ∧ c.toNat ≤ 90 then
    ⟨UInt32.ofNat (c.toNat + 32), by
      have hlt : c.toNat + 32 < 55296 := by omega
      have hsz : c.toNat + 32 < UInt32.size := by
        have h32 : UInt32.size = 4294967296 := rfl
        omega
      have h2 : (UInt32.ofNat (c.toNat + 32)).toNat = c.toNat + 32 :=
        UInt32.toNat_ofNat_of_lt hsz
      show Nat.isValidChar _
      rw [h2]
      exact Or.inl hlt⟩
  else c

/-- The JavaScript regex class `\w` (`[A-Za-z0-9_]`). -/
def isWordChar (c : Char) : Bool :=
  (97 ≤ c.toNat && c.toNat ≤ 122) || (65 ≤ c.toNat && c.toNat ≤ 90) ||
    (48 ≤ c.toNat && c.toNat ≤ 57) || c = '_'

/-- The JavaScript regex class `\s` (whitespace, including the unicode
space separators). -/
def isJsSpace (c : Char) : Bool :=
  (9 ≤ c.toNat && c.toNat ≤ 13) || c.toNat = 32 || c.toNat = 160 ||
    c.toNat = 5760 || (8192 ≤ c.toNat && c.toNat ≤ 8202) ||
    c.toNat = 8232 || c.toNat = 8233 || c.toNat = 8239 || c.toNat = 8287 ||
    c.toNat = 12288 || c.toNat = 65279

/-- `replace(/X+/g, '-')` for a character class `p`: each maximal run of
`p`-characters becomes a single hyphen.  The flag records whether the
previous character was in the run. -/
def collapseRuns (p : Char → Bool) : List Char → Bool → List Char
  | [], _ => []
  | c :: t, inRun =>
      if p c then
        if inRun then collapseRuns p t true else '-' :: collapseRuns p t true
      else c :: collapseRuns p t false

/-- The `^-+` part of the edge-strip replacement. -/
def dropLeadingHyphens (l : List Char) : List Char :=
  l.dropWhile (· = '-')

/-- The `-+$` part of the edge-strip replacement. -/
def dropTrailingHyphens : List Char → List Char
  | [] => []
  | c :: t =>
      match dropTrailingHyphens t with
      | [] => if c = '-' then [] else [c]
      | r => c :: r

/-- `generateSlug` from `src/plan-template.ts`: lowercase, strip every
character outside `[\w\s-]`, collapse whitespace runs to `-`, collapse
hyphen runs, strip leading/trailing hyphens, then `slice(0, 50)`. -/
def generateSlug (description : String) : String :=
  let l := description.data.map jsToLower
  let l := l.filter (fun c => isWordChar c || isJsSpace c || c = '-')
  let l := collapseRuns isJsSpace l false
  let l := collapseRuns (· = '-') l false
  let l := dropTrailingHyphens (dropLeadingHyphens l)
  ⟨l.take 50⟩

/-- Two adjacent hyphens somewhere in the list. -/
def hasDoubleHyphen : List Char → Bool
  | a :: b :: t => (a = '-' && b = '-') || hasDoubleHyphen (b :: t)
  | _ => false

/-- The character class `[a-z0-9-]` named by claim C8. -/
def isClaimSlugChar (c : Char) : Bool :=
  (97 ≤ c.toNat && c.toNat ≤ 122) || (48 ≤ c.toNat && c.toNat ≤ 57) || c = '-'

/-- The output character class that actually holds: `[a-z0-9_-]`
(underscores pass the `\w` filter). -/
def isSlugChar (c : Char) : Bool :=
  (97 ≤ c.toNat && c.toNat ≤ 122) || (48 ≤ c.toNat && c.toNat ≤ 57) ||
    c = '_' || c = '-'

/-- The property stated by claim C8, as a decidable predicate on the
output: only `[a-z0-9-]`, no leading or trailing hyphen, no two
consecutive hyphens, length at most 50 (lowercase is subsumed by the
character class). -/
def slugClaimOk (out : List Char) : Bool :=
  out.all isClaimSlugChar && out.head? ≠ some '-' && out.getLast? ≠ some '-' &&
    !hasDoubleHyphen out && out.length ≤ 50

/-! ### Checklist editor (`update_checklist_item` handler in `src/index.ts`) -/

/-- Outcome of a tool handler: a text response, or a thrown `McpError`. -/
inductive ChecklistOutcome where
  | text (s : String) : ChecklistOutcome
  | thrown (s : String) : ChecklistOutcome

/-- Substring test on character lists (`String.prototype.includes`). -/
def containsSub (l pat : List Char) : Bool :=
  pat.isPrefixOf l ||
    match l with
    | [] => false
    | _ :: t => containsSub t pat

/-- `a.includes(b)`. -/
def strIncludes (s sub : String) : Bool := containsSub s.data sub.data

/-- `toLowerCase` on a whole string (ASCII model, see `jsToLower`). -/
def jsLowerStr (s : String) : String := ⟨s.data.map jsToLower⟩

/-- `item.task` for a checklist entry.  A property read on a non-object
primitive yields `undefined`; the handler never reaches a property read on
`null` in the theorems below, which quantify over object-shaped items. -/
def itemTask : Value → Option Value
  | .vObj fs => objGet fs "task"
  | _ => none

/-- The match test `item.task && item.task.toLowerCase()
.includes(taskPattern.toLowerCase())`: an empty task string is falsy and
short-circuits to no-match.  (A non-string truthy task would throw on
`toLowerCase`; the theorems below quantify over string tasks.) -/
def checklistMatch (pattern : String) (item : Value) : Bool :=
  match itemTask item with
  | some (.vStr t) => t ≠ "" && strIncludes (jsLowerStr t) (jsLowerStr pattern)
  | _ => false

/-- The matching predicate as worded by claim C9 and the spec: a
case-insensitive substring match of the pattern against the item's task
field, with no extra truthiness condition.  This definition follows the
spec's words, to be compared with `checklistMatch` taken from the source. -/
def specChecklistMatch (pattern : String) (item : Value) : Bool :=
  match itemTask item with
  | some (.vStr t) => strIncludes (jsLowerStr t) (jsLowerStr pattern)
  | _ => false

/-- `{ ...item }` followed by the `complete` assignment and the
conditional `task` replacement (`if (newTask)`: the empty string is
falsy). -/
def updateItem (complete : Bool) (newTask : Option String) : Value → Value
  | .vObj fs =>
      let fs := setKey fs "complete" (.vBool complete)
      .vObj (match newTask with
        | some t => if t = "" then fs else setKey fs "task" (.vStr t)
        | none => fs)
  | v => v

/-- The success text of `update_checklist_item`. -/
def checklistSuccessMsg (count : Nat) (stage planFile pattern : String)
    (complete : Bool) (newTask : Option String) (updated : String) : String :=
  "✅ Updated " ++ toString count ++ " checklist item(s) in stage \x27" ++
    stage ++ "\x27\n📁 Plan file: " ++ planFile ++ "\n🎯 Pattern: " ++
    pattern ++ "\n✔️  Marked as: " ++
    (if complete then "complete" else "incomplete") ++
    (match newTask with
      | some t => if t = "" then "" else "\n📝 Updated task text: " ++ t
      | none => "") ++
    "\n📅 Updated at: " ++ updated

def stageNotFoundMsg (stage : String) : String :=
  "❌ Stage \x27" ++ stage ++ "\x27 not found in plan progress"

def noChecklistMsg (stage : String) : String :=
  "❌ No checklist found for stage \x27" ++ stage ++ "\x27"

def noMatchMsg (pattern : String) : String :=
  "❌ No checklist items found matching pattern: \x27" ++ pattern ++ "\x27"

/-- The `update_checklist_item` handler: load the plan, locate the stage
and its checklist, update every matching item, persist on success only. -/
def updateChecklistItem (file : FileState) (planFile stage pattern : String)
    (complete : Bool) (newTask : Option String) (now : String) :
    ChecklistOutcome × FileState :=
  match file with
  | .missing => (.thrown ("Plan file not found: " ++ planFile), .missing)
  | .corrupt msg =>
      (.thrown ("Error updating checklist item: " ++ msg), .corrupt msg)
  | .parsed rp =>
      match rp.progress with
      | none =>
          (.thrown ("Error updating checklist item: Cannot read properties of undefined (reading \x27" ++
            stage ++ "\x27)"), .parsed rp)
      | some prog =>
          match objGet prog stage with
          | none => (.text (stageNotFoundMsg stage), .parsed rp)
          | some sp =>
              match objGet sp "checklist" with
              | some (.vArr items) =>
                  if (items.filter (checklistMatch pattern)).length = 0 then
                    (.text (noMatchMsg pattern), .parsed rp)
                  else
                    let items2 := items.map (fun it =>
                      if checklistMatch pattern it then
                        updateItem complete newTask it
                      else it)
                    let rp2 := { rp with
                      progress := some (setKey prog stage
                        (setKey sp "checklist" (.vArr items2)))
                      updated := some (.vStr now) }
                    (.text (checklistSuccessMsg
                        (items.filter (checklistMatch pattern)).length
                        stage planFile pattern complete newTask now),
                     .parsed rp2)
              | _ => (.text (noChecklistMsg stage), .parsed rp)

/-- Claim C2's `missingStages` as worded by the spec: only the standard
stages strictly between the current index and the target index (exclusive
of the target) that are present in `progress` and not complete.  This
definition follows the spec's words, to be compared with
`missingStagesList` taken from the source. -/
def specMissingStagesBetween (progress : List (String × Obj)) (ci ti : Nat) :
    List String :=
  ((List.range' (ci + 1) (ti - (ci + 1))).filterMap
      (fun i => VALID_STAGES[i]?)).filter
    (fun st => (objGet progress st).isSome && !(isStageComplete progress st))

/-! ### Concrete fixtures used by witnesses and counterexamples -/

/-- A 51-character task description: an underscore, 48 letters `a`, one
hyphen, one letter `b`. -/
def slugEdgeInput : String :=
  "_aaaaaaaaaaaaaaaaaaaaaaaaaaaaaaaaaaaaaaaaaaaaaaaa-b"

/-- The slug the source produces for `slugEdgeInput`: the underscore and
the hyphen survive, and truncation leaves the hyphen in final position. -/
def slugEdgeOutput : String :=
  "_aaaaaaaaaaaaaaaaaaaaaaaaaaaaaaaaaaaaaaaaaaaaaaaa-"

/-- Read one field of one stage of the stored plan record (a convenience
observer for stating end-to-end examples). -/
def storedStageField (fs : FileState) (stage field : String) : Option Value :=
  match fs with
  | .parsed rp =>
      match objGet (rp.progress.getD []) stage with
      | some sp => objGet sp field
      | none => none
  | _ => none

/-- A well-formed single-stage plan record positioned at `scope_analysis`. -/
def scopePlan : RawPlan :=
  { task := some (.vStr "demo task"), slug := some (.vStr "demo-task"),
    workflow := some (.vStr "medium"), phase := some "scope_analysis",
    status := some "active", created := some (.vStr "2024-01-01"),
    updated := some (.vStr "2024-01-01"),
    progress := some [("scope_analysis", createStageProgress "scope_analysis")] }

/-- A well-formed single-stage plan record positioned at `solution_design`. -/
def designPlan : RawPlan :=
  { task := some (.vStr "demo task"), slug := some (.vStr "demo-task"),
    workflow := some (.vStr "medium"), phase := some "solution_design",
    status := some "active", created := some (.vStr "2024-01-01"),
    updated := some (.vStr "2024-01-01"),
    progress := some [("solution_design", createStageProgress "solution_design")] }

/-- `scopePlan` with a second (incomplete) `context_gathering` stage. -/
def twoStagePlan : RawPlan :=
  { task := some (.vStr "demo task"), slug := some (.vStr "demo-task"),
    workflow := some (.vStr "medium"), phase := some "scope_analysis",
    status := some "active", created := some (.vStr "2024-01-01"),
    updated := some (.vStr "2024-01-01"),
    progress := some [("scope_analysis", createStageProgress "scope_analysis"),
      ("context_gathering", createStageProgress "context_gathering")] }

/-- The plan record produced by advancing `twoStagePlan` to
`context_gathering` at time `t1`. -/
def twoStagePlanDone : Plan :=
  { task := some (.vStr "demo task"), slug := some (.vStr "demo-task"),
    workflow := some (.vStr "medium"), phase := "context_gathering",
    status := some "completed", created := some (.vStr "2024-01-01"),
    updated := some (.vStr "t1"),
    progress := [("scope_analysis",
        [("complete", .vBool true), ("findings", .vObj [])]),
      ("context_gathering",
        [("complete", .vBool true), ("findings", .vObj [])])] }

/-- The plan record produced by completing `scope_analysis` on
`scopePlan` at time `t1`. -/
def scopePlanDone : Plan :=
  { task := some (.vStr "demo task"), slug := some (.vStr "demo-task"),
    workflow := some (.vStr "medium"), phase := "scope_analysis",
    status := some "completed", created := some (.vStr "2024-01-01"),
    updated := some (.vStr "t1"),
    progress := [("scope_analysis",
      [("complete", .vBool true), ("findings", .vObj [])])] }

/-- A plan whose `solution_design` checklist has three items, two of them
matching the pattern `write` case-insensitively. -/
def checklistPlan : RawPlan :=
  { task := some (.vStr "demo task"), slug := some (.vStr "demo-task"),
    workflow := some (.vStr "medium"), phase := some "solution_design",
    status := some "active", created := some (.vStr "2024-01-01"),
    updated := some (.vStr "2024-01-01"),
    progress := some [("solution_design",
      [("complete", .vBool false), ("artifacts", .vObj []),
       ("checklist", .vArr
         [.vObj [("task", .vStr "Write tests"), ("complete", .vBool false)],
          .vObj [("task", .vStr "write docs"), ("complete", .vBool false)],
          .vObj [("task", .vStr "deploy"), ("complete", .vBool false)]])])] }

/-- A plan whose `solution_design` checklist holds an empty-task item and
a one-letter item (the edge case for the empty pattern). -/
def emptyTaskPlan : RawPlan :=
  { task := some (.vStr "demo task"), slug := some (.vStr "demo-task"),
    workflow := some (.vStr "medium"), phase := some "solution_design",
    status := some "active", created := some (.vStr "2024-01-01"),
    updated := some (.vStr "2024-01-01"),
    progress := some [("solution_design",
      [("complete", .vBool false),
       ("checklist", .vArr
         [.vObj [("task", .vStr ""), ("complete", .vBool false)],
          .vObj [("task", .vStr "a"), ("complete", .vBool false)]])])] }

/-- Invariant used by the persistence validation: every progress entry
carries a `complete` field. -/
def entriesHaveComplete (prog : List (String × Obj)) : Prop :=
  ∀ e ∈ prog, (objGet e.2 "complete").isSome

instance (prog : List (String × Obj)) : Decidable (entriesHaveComplete prog) := by
  unfold entriesHaveComplete
  infer_instance

/-! ### Association-list lemmas -/

theorem objGet_setKey_self (l : List (String × α)) (k : String) (v : α) :
    objGet (setKey l k v) k = some v := by
  induction l with
  | nil => simp [setKey, objGet]
  | cons e t ih =>
      obtain ⟨k', v'⟩ := e
      by_cases h : k' = k
      · simp [setKey, h, objGet]
      · simp [setKey, h, objGet, ih]

theorem objGet_setKey_ne (l : List (String × α)) (k k' : String) (v : α)
    (h : k' ≠ k) : objGet (setKey l k v) k' = objGet l k' := by
  have h' : ¬ k = k' := fun hh => h hh.symm
  induction l with
  | nil => simp [setKey, objGet, h']
  | cons e t ih =>
      obtain ⟨k₀, v₀⟩ := e
      by_cases h0 : k₀ = k
      · subst h0
        simp [setKey, objGet, h']
      · simp only [setKey, if_neg h0, objGet]
        by_cases h1 : k₀ = k'
        · simp [h1]
        · simp [h1, ih]

theorem setKey_setKey_same (l : List (String × α)) (k : String) (v v' : α) :
    setKey (setKey l k v) k v' = setKey l k v' := by
  induction l with
  | nil => simp [setKey]
  | cons e t ih =>
      obtain ⟨k₀, v₀⟩ := e
      by_cases h0 : k₀ = k
      · simp [setKey, h0]
      · simp [setKey, h0, ih]

theorem mem_setKey (l : List (String × α)) (k : String) (v : α) (e : String × α)
    (h : e ∈ setKey l k v) : e ∈ l ∨ e = (k, v) := by
  induction l with
  | nil => simpa [setKey] using h
  | cons e₀ t ih =>
      obtain ⟨k₀, v₀⟩ := e₀
      by_cases h0 : k₀ = k
      · simp only [setKey, if_pos h0] at h
        rcases List.mem_cons.mp h with h | h
        · exact Or.inr h
        · exact Or.inl (List.mem_cons_of_mem _ h)
      · simp only [setKey, if_neg h0] at h
        rcases List.mem_cons.mp h with h | h
        · exact Or.inl (h ▸ List.mem_cons_self _ _)
        · rcases ih h with h | h
          · exact Or.inl (List.mem_cons_of_mem _ h)
          · exact Or.inr h

theorem objGet_mem (l : List (String × α)) (k : String) (v : α)
    (h : objGet l k = some v) : (k, v) ∈ l := by
  induction l with
  | nil => simp [objGet] at h
  | cons e t ih =>
      obtain ⟨k₀, v₀⟩ := e
      by_cases h0 : k₀ = k
      · subst h0
        simp only [objGet, if_pos rfl] at h
        have hv : v₀ = v := by
          simpa using h
        subst hv
        exact List.mem_cons_self _ _
      · simp only [objGet, if_neg h0] at h
        exact List.mem_cons_of_mem _ (ih h)

theorem objGet_eq_none_of_not_mem_keys (l : List (String × α)) (k : String)
    (h : k ∉ l.map Prod.fst) : objGet l k = none := by
  induction l with
  | nil => rfl
  | cons e t ih =>
      obtain ⟨k₀, v₀⟩ := e
      simp only [List.map_cons, List.mem_cons] at h
      push_neg at h
      simp only [objGet, if_neg (fun hh : k₀ = k => h.1 hh.symm)]
      exact ih h.2

theorem objGet_objMerge (a b : List (String × Value)) (k : String)
    (hnd : (b.map Prod.fst).Nodup) :
    objGet (objMerge a b) k =
      match objGet b k with
      | some v => some v
      | none => objGet a k := by
  induction b generalizing a with
  | nil => simp [objMerge, objGet]
  | cons kv rest ih =>
      obtain ⟨k₀, v₀⟩ := kv
      simp only [List.map_cons, List.nodup_cons] at hnd
      have step : objMerge a ((k₀, v₀) :: rest) = objMerge (setKey a k₀ v₀) rest := by
        simp [objMerge]
      rw [step, ih _ hnd.2]
      by_cases h0 : k₀ = k
      · subst h0
        have hnone : objGet rest k₀ = none :=
          objGet_eq_none_of_not_mem_keys _ _ hnd.1
        simp [objGet, hnone, objGet_setKey_self]
      · simp only [objGet, if_neg h0]
        cases objGet rest k with
        | none => simp [objGet_setKey_ne _ _ _ _ (fun hh => h0 hh.symm)]
        | some v => simp

/-! ### Stage-ordering lemmas -/

theorem stageOrder_getElem (s : String) (i : Nat) (h : STAGE_ORDER s = some i) :
    VALID_STAGES[i]? = some s := by
  unfold STAGE_ORDER at h
  split at h <;> simp_all [VALID_STAGES] <;> (subst h; rfl)

theorem getElem_stageOrder (i : Nat) (s : String)
    (h : VALID_STAGES[i]? = some s) : STAGE_ORDER s = some i := by
  have hi : i < 7 := by
    by_contra hge
    have : VALID_STAGES[i]? = none := by
      apply List.getElem?_eq_none
      simp only [VALID_STAGES, List.length]
      omega
    rw [this] at h
    exact Option.noConfusion h
  interval_cases i <;> (simp [VALID_STAGES] at h; subst h; rfl)

theorem stageOrder_lt_length (s : String) (i : Nat)
    (h : STAGE_ORDER s = some i) : i < 7 := by
  unfold STAGE_ORDER at h
  split at h <;> simp_all <;> omega

theorem mem_take_iff {α : Type} (a : α) (l : List α) (n : Nat) :
    a ∈ l.take n ↔ ∃ i, i < n ∧ l[i]? = some a := by
  constructor
  · intro h
    obtain ⟨i, hi, hEq⟩ := List.mem_iff_getElem.mp h
    have hlen : i < min n l.length := by simpa using hi
    have hlt : i < n := by omega
    refine ⟨i, hlt, ?_⟩
    have h1 : (l.take n)[i]? = some a := by
      rw [List.getElem?_eq_getElem hi, hEq]
    rw [List.getElem?_take, if_pos hlt] at h1
    exact h1
  · rintro ⟨i, hi, hEq⟩
    have h1 : (l.take n)[i]? = some a := by
      rw [List.getElem?_take, if_pos hi, hEq]
    exact List.getElem?_mem h1

theorem mem_take_stage (k : String) (ti : Nat) :
    k ∈ VALID_STAGES.take ti ↔ ∃ i, STAGE_ORDER k = some i ∧ i < ti := by
  rw [mem_take_iff]
  constructor
  · rintro ⟨i, hi, hEq⟩
    exact ⟨i, getElem_stageOrder i k hEq, hi⟩
  · rintro ⟨i, hOrd, hi⟩
    exact ⟨i, hi, stageOrder_getElem k i hOrd⟩

/-! ### Marking-loop lemmas -/

theorem objGet_markStep_self (prog : List (String × Obj)) (st : String) :
    objGet (markStep prog st) st =
      (objGet prog st).map (fun fs => setKey fs "complete" (.vBool true)) := by
  cases hp : objGet prog st with
  | none => simp [markStep, hp]
  | some fs => simp [markStep, hp, objGet_setKey_self]

theorem objGet_markStep_ne (prog : List (String × Obj)) (st k : String)
    (h : k ≠ st) : objGet (markStep prog st) k = objGet prog k := by
  cases hp : objGet prog st with
  | none => simp [markStep, hp]
  | some fs => simp [markStep, hp, objGet_setKey_ne _ _ _ _ h]

theorem foldl_markStep_objGet (L : List String) (prog : List (String × Obj))
    (k : String) :
    objGet (L.foldl markStep prog) k =
      if k ∈ L then
        (objGet prog k).map (fun fs => setKey fs "complete" (.vBool true))
      else objGet prog k := by
  induction L generalizing prog with
  | nil => simp
  | cons st L ih =>
      rw [List.foldl_cons, ih]
      by_cases hk : k = st
      · subst hk
        rw [objGet_markStep_self]
        by_cases hmem : k ∈ L
        · simp only [hmem, if_true, List.mem_cons, true_or, if_pos (Or.inl rfl)]
          cases objGet prog k with
          | none => simp
          | some fs => simp [setKey_setKey_same]
        · simp [hmem, List.mem_cons]
      · rw [objGet_markStep_ne _ _ _ hk]
        by_cases hm : k ∈ L
        · rw [if_pos hm, if_pos (List.mem_cons_of_mem _ hm)]
        · rw [if_neg hm, if_neg (by simp [List.mem_cons, hk, hm])]

theorem markStagesBefore_objGet (prog : List (String × Obj)) (ti : Nat)
    (k : String) :
    objGet (markStagesBefore prog ti) k =
      if ∃ i, STAGE_ORDER k = some i ∧ i < ti then
        (objGet prog k).map (fun fs => setKey fs "complete" (.vBool true))
      else objGet prog k := by
  unfold markStagesBefore
  rw [foldl_markStep_objGet]
  by_cases hmem : k ∈ VALID_STAGES.take ti
  · rw [if_pos hmem, if_pos ((mem_take_stage k ti).mp hmem)]
  · rw [if_neg hmem, if_neg (fun hx => hmem ((mem_take_stage k ti).mpr hx))]

/-! ### Section-merge lemmas -/

theorem objGet_sectionStep_ne (stage : String) (prog : List (String × Obj))
    (kv : String × Value) (k : String) (h : k ≠ stage) :
    objGet (sectionStep stage prog kv) k = objGet prog k := by
  cases hp : objGet prog stage with
  | none => simp [sectionStep, hp]
  | some sp => simp [sectionStep, hp, objGet_setKey_ne _ _ _ _ h]

theorem sectionStep_target_isSome (stage : String) (prog : List (String × Obj))
    (kv : String × Value) (h : (objGet prog stage).isSome) :
    (objGet (sectionStep stage prog kv) stage).isSome := by
  cases hp : objGet prog stage with
  | none => rw [hp] at h; exact absurd h (by simp)
  | some sp => simp [sectionStep, hp, objGet_setKey_self]

theorem foldl_sectionStep_objGet_ne (stage : String)
    (sd : List (String × Value)) (prog : List (String × Obj)) (k : String)
    (h : k ≠ stage) :
    objGet (sd.foldl (sectionStep stage) prog) k = objGet prog k := by
  induction sd generalizing prog with
  | nil => rfl
  | cons kv rest ih =>
      rw [List.foldl_cons, ih, objGet_sectionStep_ne _ _ _ _ h]

theorem updateStageSection_objGet_ne (prog : List (String × Obj))
    (stage : String) (sd : List (String × Value)) (k : String)
    (h : k ≠ stage) :
    objGet (updateStageSection prog stage sd) k = objGet prog k := by
  unfold updateStageSection
  rw [foldl_sectionStep_objGet_ne _ _ _ _ h]
  by_cases hp : (objGet prog stage).isSome
  · rw [if_pos hp]
  · rw [if_neg hp, objGet_setKey_ne _ _ _ _ h]

theorem foldl_sectionStep_target_isSome (stage : String)
    (sd : List (String × Value)) (prog : List (String × Obj))
    (h : (objGet prog stage).isSome) :
    (objGet (sd.foldl (sectionStep stage) prog) stage).isSome := by
  induction sd generalizing prog with
  | nil => exact h
  | cons kv rest ih =>
      rw [List.foldl_cons]
      exact ih _ (sectionStep_target_isSome _ _ _ h)

theorem updateStageSection_target_isSome (prog : List (String × Obj))
    (stage : String) (sd : List (String × Value)) :
    (objGet (updateStageSection prog stage sd) stage).isSome := by
  unfold updateStageSection
  apply foldl_sectionStep_target_isSome
  by_cases hp : (objGet prog stage).isSome
  · rw [if_pos hp]; exact hp
  · rw [if_neg hp]; simp [objGet_setKey_self]

theorem foldl_sectionStep_spec (stage : String) (sd : List (String × Value))
    (prog : List (String × Obj)) (sp : Obj)
    (h : objGet prog stage = some sp) (hnd : (sd.map Prod.fst).Nodup) :
    ∃ sp', objGet (sd.foldl (sectionStep stage) prog) stage = some sp' ∧
      (∀ kv ∈ sd, objGet sp' kv.1 = some (mergeValue (objGet sp kv.1) kv.2)) ∧
      (∀ k, k ∉ sd.map Prod.fst → objGet sp' k = objGet sp k) := by
  induction sd generalizing prog sp with
  | nil => exact ⟨sp, h, by simp, fun k _ => rfl⟩
  | cons kv rest ih =>
      simp only [List.map_cons, List.nodup_cons] at hnd
      have hstep : sectionStep stage prog kv =
          setKey prog stage (setKey sp kv.1 (mergeValue (objGet sp kv.1) kv.2)) := by
        simp [sectionStep, h]
      have h1 : objGet (sectionStep stage prog kv) stage =
          some (setKey sp kv.1 (mergeValue (objGet sp kv.1) kv.2)) := by
        rw [hstep, objGet_setKey_self]
      obtain ⟨sp', hsp', hmem, hother⟩ := ih _ _ h1 hnd.2
      refine ⟨sp', by rw [List.foldl_cons]; exact hsp', ?_, ?_⟩
      · intro kv' hkv'
        rcases List.mem_cons.mp hkv' with hEq | hkv'
        · rw [hEq, hother kv.1 hnd.1, objGet_setKey_self]
        · have hne : kv'.1 ≠ kv.1 := by
            intro hEq
            exact hnd.1 (hEq ▸ List.mem_map_of_mem Prod.fst hkv')
          rw [hmem kv' hkv', objGet_setKey_ne _ _ _ _ hne]
      · intro k hk
        simp only [List.map_cons, List.mem_cons] at hk
        push_neg at hk
        rw [hother k hk.2, objGet_setKey_ne _ _ _ _ hk.1]

theorem createStageProgress_complete (stage : String) :
    objGet (createStageProgress stage) "complete" = some (.vBool false) := by
  unfold createStageProgress
  split <;> simp [objGet]

theorem complete_isSome_setKey (fs : Obj) (k : String) (v : Value)
    (h : (objGet fs "complete").isSome) :
    (objGet (setKey fs k v) "complete").isSome := by
  by_cases hk : "complete" = k
  · subst hk
    simp [objGet_setKey_self]
  · rw [objGet_setKey_ne _ _ _ _ hk]
    exact h

theorem entriesHaveComplete_setKey (prog : List (String × Obj)) (k : String)
    (fs : Obj) (hp : entriesHaveComplete prog)
    (hfs : (objGet fs "complete").isSome) :
    entriesHaveComplete (setKey prog k fs) := by
  intro e he
  rcases mem_setKey _ _ _ _ he with he | he
  · exact hp e he
  · rw [he]
    exact hfs

theorem entriesHaveComplete_markStep (prog : List (String × Obj)) (st : String)
    (hp : entriesHaveComplete prog) : entriesHaveComplete (markStep prog st) := by
  unfold markStep
  cases hs : objGet prog st with
  | none => exact hp
  | some fs =>
      apply entriesHaveComplete_setKey _ _ _ hp
      simp [objGet_setKey_self]

theorem entriesHaveComplete_foldl_markStep (L : List String)
    (prog : List (String × Obj)) (hp : entriesHaveComplete prog) :
    entriesHaveComplete (L.foldl markStep prog) := by
  induction L generalizing prog with
  | nil => exact hp
  | cons st L ih => exact ih _ (entriesHaveComplete_markStep _ _ hp)

theorem entriesHaveComplete_sectionStep (stage : String)
    (prog : List (String × Obj)) (kv : String × Value)
    (hp : entriesHaveComplete prog) :
    entriesHaveComplete (sectionStep stage prog kv) := by
  unfold sectionStep
  cases hs : objGet prog stage with
  | none => exact hp
  | some sp =>
      apply entriesHaveComplete_setKey _ _ _ hp
      apply complete_isSome_setKey
      exact hp (stage, sp) (objGet_mem _ _ _ hs)

theorem entriesHaveComplete_foldl_sectionStep (stage : String)
    (sd : List (String × Value)) (prog : List (String × Obj))
    (hp : entriesHaveComplete prog) :
    entriesHaveComplete (sd.foldl (sectionStep stage) prog) := by
  induction sd generalizing prog with
  | nil => exact hp
  | cons kv rest ih =>
      rw [List.foldl_cons]
      exact ih _ (entriesHaveComplete_sectionStep _ _ _ hp)

theorem entriesHaveComplete_updateStageSection (prog : List (String × Obj))
    (stage : String) (sd : List (String × Value))
    (hp : entriesHaveComplete prog) :
    entriesHaveComplete (updateStageSection prog stage sd) := by
  unfold updateStageSection
  apply entriesHaveComplete_foldl_sectionStep
  by_cases hs : (objGet prog stage).isSome
  · rw [if_pos hs]; exact hp
  · rw [if_neg hs]
    apply entriesHaveComplete_setKey _ _ _ hp
    rw [createStageProgress_complete]
    rfl

/-! ### Pipeline destructuring lemmas -/

theorem updatePlanStructure_ok (p : Plan) (target : String)
    (opts : UpdateOptions) (ws : List String) (now : String)
    (p' : Plan) (ws' : List String)
    (h : updatePlanStructure p target opts ws now = .ok (p', ws')) :
    ∃ prog3, progAfterComplete p target opts = .ok prog3 ∧
      p'.phase = target ∧ p'.progress = prog3 ∧ p'.task = p.task ∧
      p'.slug = p.slug ∧ p'.workflow = p.workflow ∧ p'.created = p.created ∧
      p'.updated = some (.vStr now) ∧
      ((allStagesComplete prog3 = true ∧ p'.status = some "completed" ∧
          ws' = ws ++ [allCompleteWarning]) ∨
        (allStagesComplete prog3 = false ∧ p.status = some "completed" ∧
          p'.status = some "active" ∧ ws' = ws ++ [statusToActiveWarning]) ∨
        (allStagesComplete prog3 = false ∧ p.status ≠ some "completed" ∧
          p'.status = p.status ∧ ws' = ws)) := by
  unfold updatePlanStructure at h
  cases hc : progAfterComplete p target opts with
  | error e => rw [hc] at h; exact absurd h (by simp)
  | ok prog3 =>
      rw [hc] at h
      dsimp only at h
      refine ⟨prog3, rfl, ?_⟩
      by_cases hall : allStagesComplete prog3 = true
      · rw [if_pos hall] at h
        injection h with h1
        injection h1 with hp hw
        subst hp; subst hw
        exact ⟨rfl, rfl, rfl, rfl, rfl, rfl, rfl, Or.inl ⟨hall, rfl, rfl⟩⟩
      · rw [if_neg hall] at h
        have hallf : allStagesComplete prog3 = false := by
          simpa using hall
        by_cases hst : p.status = some "completed"
        · rw [if_pos hst] at h
          injection h with h1
          injection h1 with hp hw
          subst hp; subst hw
          exact ⟨rfl, rfl, rfl, rfl, rfl, rfl, rfl,
            Or.inr (Or.inl ⟨hallf, hst, rfl, rfl⟩)⟩
        · rw [if_neg hst] at h
          injection h with h1
          injection h1 with hp hw
          subst hp; subst hw
          exact ⟨rfl, rfl, rfl, rfl, rfl, rfl, rfl,
            Or.inr (Or.inr ⟨hallf, hst, rfl, rfl⟩)⟩

theorem runUpdate_parsed_ok (rp : RawPlan) (pf target : String)
    (opts : UpdateOptions) (now : String) (p' : Plan) (ws : List String)
    (h : runUpdate (.parsed rp) pf target opts now = .ok (p', ws)) :
    ∃ ws1, validateStage (normalizePlan rp) target opts.force [] = .ok ws1 ∧
      updatePlanStructure (normalizePlan rp) target opts ws1 now = .ok (p', ws) ∧
      validatePlanStructure p' = .ok () := by
  unfold runUpdate loadPlan at h
  dsimp only at h
  cases hv : validateStage (normalizePlan rp) target opts.force [] with
  | error e => rw [hv] at h; exact absurd h (by simp)
  | ok ws1 =>
      rw [hv] at h
      dsimp only at h
      cases hu : updatePlanStructure (normalizePlan rp) target opts ws1 now with
      | error e => rw [hu] at h; exact absurd h (by simp)
      | ok pws =>
          rw [hu] at h
          dsimp only at h
          cases hs : validatePlanStructure pws.1 with
          | error e => rw [hs] at h; exact absurd h (by simp)
          | ok u =>
              rw [hs] at h
              dsimp only at h
              cases u
              injection h with h1
              subst h1
              exact ⟨ws1, rfl, hu, hs⟩

theorem runUpdate_parsed_ok_of_steps (rp : RawPlan) (pf target : String)
    (opts : UpdateOptions) (now : String) (p' : Plan) (ws1 ws : List String)
    (hv : validateStage (normalizePlan rp) target opts.force [] = .ok ws1)
    (hu : updatePlanStructure (normalizePlan rp) target opts ws1 now = .ok (p', ws))
    (hs : validatePlanStructure p' = .ok ()) :
    runUpdate (.parsed rp) pf target opts now = .ok (p', ws) := by
  unfold runUpdate loadPlan
  dsimp only
  rw [hv]
  dsimp only
  rw [hu]
  dsimp only
  rw [hs]

theorem updateStage_failure_file_unchanged (file : FileState)
    (pf target : String) (opts : UpdateOptions) (now : String)
    (h : (updateStage file pf target opts now).1.success = false) :
    (updateStage file pf target opts now).2 = file := by
  unfold updateStage at h ⊢
  cases hr : runUpdate file pf target opts now with
  | error e => rfl
  | ok pws => rw [hr] at h; exact absurd h (by simp)

theorem updateStage_of_runUpdate_error (file : FileState)
    (pf target : String) (opts : UpdateOptions) (now : String) (e : String)
    (h : runUpdate file pf target opts now = .error e) :
    updateStage file pf target opts now =
      ({ success := false, error := some e }, file) := by
  unfold updateStage
  rw [h]

theorem updateStage_of_runUpdate_ok (file : FileState)
    (pf target : String) (opts : UpdateOptions) (now : String) (p' : Plan)
    (ws : List String) (h : runUpdate file pf target opts now = .ok (p', ws)) :
    updateStage file pf target opts now =
      ({ success := true, stage := some target, updatedAt := p'.updated,
         warnings := if ws.length > 0 then some ws else none },
       .parsed (toRaw p')) := by
  unfold updateStage
  rw [h]

/-! ### `generateSlug` lemmas -/

theorem jsToLower_toNat_of_upper (c : Char) (h : 65 ≤ c.toNat ∧ c.toNat ≤ 90) :
    (jsToLower c).toNat = c.toNat + 32 := by
  unfold jsToLower
  rw [dif_pos h]
  show (UInt32.ofNat (c.toNat + 32)).toNat = c.toNat + 32
  apply UInt32.toNat_ofNat_of_lt
  have h32 : UInt32.size = 4294967296 := rfl
  omega

theorem jsToLower_eq_of_not_upper (c : Char)
    (h : ¬(65 ≤ c.toNat ∧ c.toNat ≤ 90)) : jsToLower c = c := by
  unfold jsToLower
  rw [dif_neg h]

theorem jsToLower_not_upper (c : Char) :
    ¬(65 ≤ (jsToLower c).toNat ∧ (jsToLower c).toNat ≤ 90) := by
  by_cases h : 65 ≤ c.toNat ∧ c.toNat ≤ 90
  · rw [jsToLower_toNat_of_upper c h]
    omega
  · rw [jsToLower_eq_of_not_upper c h]
    exact h

theorem collapseRuns_mem (p : Char → Bool) (l : List Char) (b : Bool)
    (c : Char) (h : c ∈ collapseRuns p l b) :
    c = '-' ∨ (c ∈ l ∧ p c = false) := by
  induction l generalizing b with
  | nil => simp [collapseRuns] at h
  | cons a t ih =>
      by_cases ha : p a
      · simp only [collapseRuns, if_pos ha] at h
        by_cases hb : b
        · rw [if_pos hb] at h
          rcases ih _ h with h | h
          · exact Or.inl h
          · exact Or.inr ⟨List.mem_cons_of_mem _ h.1, h.2⟩
        · rw [if_neg hb] at h
          rcases List.mem_cons.mp h with h | h
          · exact Or.inl h
          · rcases ih _ h with h | h
            · exact Or.inl h
            · exact Or.inr ⟨List.mem_cons_of_mem _ h.1, h.2⟩
      · simp only [collapseRuns, if_neg ha] at h
        rcases List.mem_cons.mp h with h | h
        · subst h
          exact Or.inr ⟨List.mem_cons_self _ _, by simpa using ha⟩
        · rcases ih _ h with h | h
          · exact Or.inl h
          · exact Or.inr ⟨List.mem_cons_of_mem _ h.1, h.2⟩

theorem dropTrailingHyphens_isPre (l : List Char) :
    dropTrailingHyphens l <+: l := by
  induction l with
  | nil => exact List.prefix_refl _
  | cons c t ih =>
      unfold dropTrailingHyphens
      cases hr : dropTrailingHyphens t with
      | nil =>
          by_cases hc : c = '-'
          · rw [if_pos hc]
            exact List.nil_prefix
          · rw [if_neg hc]
            exact ⟨t, rfl⟩
      | cons r0 rt =>
          rw [hr] at ih
          exact (List.prefix_cons_inj c).mpr ih

theorem hasDoubleHyphen_cons (a : Char) (rest : List Char) :
    hasDoubleHyphen (a :: rest) =
      ((decide (a = '-') && decide (rest.head? = some '-')) ||
        hasDoubleHyphen rest) := by
  cases rest <;> simp [hasDoubleHyphen]

theorem hasDoubleHyphen_tail (a : Char) (rest : List Char)
    (h : hasDoubleHyphen (a :: rest) = false) : hasDoubleHyphen rest = false := by
  rw [hasDoubleHyphen_cons] at h
  exact (Bool.or_eq_false_iff.mp h).2

theorem hasDoubleHyphen_prefix (pre t : List Char)
    (h : hasDoubleHyphen (pre ++ t) = false) : hasDoubleHyphen pre = false := by
  induction pre with
  | nil => rfl
  | cons a pre' ih =>
      rw [List.cons_append, hasDoubleHyphen_cons] at h
      obtain ⟨h1, h2⟩ := Bool.or_eq_false_iff.mp h
      rw [hasDoubleHyphen_cons]
      apply Bool.or_eq_false_iff.mpr
      refine ⟨?_, ih h2⟩
      cases pre' with
      | nil => simp
      | cons b t' => simpa using h1

theorem hasDoubleHyphen_suffix (pre s : List Char)
    (h : hasDoubleHyphen (pre ++ s) = false) : hasDoubleHyphen s = false := by
  induction pre with
  | nil => exact h
  | cons a pre' ih =>
      rw [List.cons_append] at h
      exact ih (hasDoubleHyphen_tail _ _ h)

theorem collapseRuns_hyphen_cons_pos_true (t : List Char) :
    collapseRuns (· = '-') ('-' :: t) true = collapseRuns (· = '-') t true := by
  simp [collapseRuns]

theorem collapseRuns_hyphen_cons_pos_false (t : List Char) :
    collapseRuns (· = '-') ('-' :: t) false =
      '-' :: collapseRuns (· = '-') t true := by
  simp [collapseRuns]

theorem collapseRuns_hyphen_cons_neg (c : Char) (t : List Char) (b : Bool)
    (hc : ¬c = '-') :
    collapseRuns (· = '-') (c :: t) b = c :: collapseRuns (· = '-') t false := by
  simp [collapseRuns, hc]

theorem collapseRuns_hyphen_head (l : List Char)
    (h : (collapseRuns (· = '-') l true).head? = some '-') : False := by
  induction l with
  | nil => simp [collapseRuns] at h
  | cons c t ih =>
      by_cases hc : c = '-'
      · subst hc
        rw [collapseRuns_hyphen_cons_pos_true] at h
        exact ih h
      · rw [collapseRuns_hyphen_cons_neg c t true hc] at h
        simp only [List.head?_cons, Option.some.injEq] at h
        exact hc h

theorem collapseRuns_hyphen_noDouble (l : List Char) (b : Bool) :
    hasDoubleHyphen (collapseRuns (· = '-') l b) = false := by
  induction l generalizing b with
  | nil => rfl
  | cons c t ih =>
      by_cases hc : c = '-'
      · subst hc
        cases b with
        | true =>
            rw [collapseRuns_hyphen_cons_pos_true]
            exact ih true
        | false =>
            rw [collapseRuns_hyphen_cons_pos_false, hasDoubleHyphen_cons]
            apply Bool.or_eq_false_iff.mpr
            refine ⟨?_, ih true⟩
            by_cases hh : (collapseRuns (· = '-') t true).head? = some '-'
            · exact absurd hh (fun hx => collapseRuns_hyphen_head t hx)
            · simp [hh]
      · rw [collapseRuns_hyphen_cons_neg c t b hc, hasDoubleHyphen_cons]
        apply Bool.or_eq_false_iff.mpr
        exact ⟨by simp [hc], ih false⟩

theorem dropWhile_head_not {α : Type} (p : α → Bool) (l : List α) (c : α)
    (h : (l.dropWhile p).head? = some c) : p c = false := by
  induction l with
  | nil => simp [List.dropWhile] at h
  | cons a t ih =>
      by_cases pa : p a
      · rw [List.dropWhile_cons, if_pos pa] at h
        exact ih h
      · rw [List.dropWhile_cons, if_neg pa] at h
        simp only [List.head?_cons, Option.some.injEq] at h
        subst h
        simpa using pa

theorem dropTrailingHyphens_head (l : List Char) (c : Char)
    (h : (dropTrailingHyphens l).head? = some c) : l.head? = some c := by
  cases l with
  | nil => simp [dropTrailingHyphens] at h
  | cons a t =>
      unfold dropTrailingHyphens at h
      cases hr : dropTrailingHyphens t with
      | nil =>
          rw [hr] at h
          by_cases ha : a = '-'
          · rw [if_pos ha] at h
            simp at h
          · rw [if_neg ha] at h
            simpa using h
      | cons r0 rt =>
          rw [hr] at h
          simpa using h

theorem take_head {α : Type} (n : Nat) (l : List α) (c : α)
    (h : (l.take n).head? = some c) : l.head? = some c := by
  cases l with
  | nil => simp at h
  | cons a t =>
      cases n with
      | zero => simp at h
      | succ m => simpa using h

theorem generateSlug_data (s : String) :
    (generateSlug s).data =
      (dropTrailingHyphens (dropLeadingHyphens
        (collapseRuns (· = '-')
          (collapseRuns isJsSpace
            ((s.data.map jsToLower).filter
              (fun c => isWordChar c || isJsSpace c || c = '-')) false)
          false))).take 50 := rfl

theorem hasDoubleHyphen_dropWhile (p : Char → Bool) (l : List Char)
    (h : hasDoubleHyphen l = false) :
    hasDoubleHyphen (l.dropWhile p) = false := by
  induction l with
  | nil => exact h
  | cons a t ih =>
      rw [List.dropWhile_cons]
      by_cases pa : p a
      · rw [if_pos pa]
        exact ih (hasDoubleHyphen_tail _ _ h)
      · rw [if_neg pa]
        exact h

theorem generateSlug_chars (s : String) (c : Char)
    (h : c ∈ (generateSlug s).data) : isSlugChar c = true := by
  rw [generateSlug_data] at h
  have h1 := (List.take_prefix _ _).subset h
  have h2 := (dropTrailingHyphens_isPre _).subset h1
  have h3 := (List.dropWhile_sublist _).subset h2
  rcases collapseRuns_mem _ _ _ _ h3 with hc | ⟨h4, hnh⟩
  · rw [hc]
    decide
  rcases collapseRuns_mem _ _ _ _ h4 with hc | ⟨h5, hns⟩
  · rw [hc]
    decide
  obtain ⟨h6, hp⟩ := List.mem_filter.mp h5
  simp only [Bool.or_eq_true] at hp
  cases hp with
  | inl hws =>
      cases hws with
      | inl hw =>
          obtain ⟨a, _, rfl⟩ := List.mem_map.mp h6
          have hnu := jsToLower_not_upper a
          simp only [isWordChar, Bool.or_eq_true, Bool.and_eq_true,
            decide_eq_true_eq] at hw
          simp only [isSlugChar, Bool.or_eq_true, Bool.and_eq_true,
            decide_eq_true_eq]
          rcases hw with ((h | h) | h) | h
          · exact Or.inl (Or.inl (Or.inl h))
          · exact absurd h hnu
          · exact Or.inl (Or.inl (Or.inr h))
          · exact Or.inl (Or.inr h)
      | inr hs =>
          rw [hs] at hns
          exact absurd hns (by simp)
  | inr hd =>
      simp only [decide_eq_true_eq] at hd
      rw [hd] at hnh
      exact absurd hnh (by simp)

theorem generateSlug_no_leading_hyphen (s : String) :
    (generateSlug s).data.head? ≠ some '-' := by
  intro h
  rw [generateSlug_data] at h
  have h1 := take_head _ _ _ h
  have h2 := dropTrailingHyphens_head _ _ h1
  have h3 := dropWhile_head_not _ _ _ h2
  simp at h3

theorem generateSlug_noDouble (s : String) :
    hasDoubleHyphen (generateSlug s).data = false := by
  rw [generateSlug_data]
  have h0 := collapseRuns_hyphen_noDouble
    (collapseRuns isJsSpace
      ((s.data.map jsToLower).filter
        (fun c => isWordChar c || isJsSpace c || c = '-')) false) false
  have h1 : hasDoubleHyphen
      (dropLeadingHyphens
        (collapseRuns (· = '-')
          (collapseRuns isJsSpace
            ((s.data.map jsToLower).filter
              (fun c => isWordChar c || isJsSpace c || c = '-')) false)
          false)) = false :=
    hasDoubleHyphen_dropWhile (· = '-') _ h0
  obtain ⟨t1, ht1⟩ := dropTrailingHyphens_isPre
    (dropLeadingHyphens
      (collapseRuns (· = '-')
        (collapseRuns isJsSpace
          ((s.data.map jsToLower).filter
            (fun c => isWordChar c || isJsSpace c || c = '-')) false) false))
  rw [← ht1] at h1
  have h2 := hasDoubleHyphen_prefix _ _ h1
  obtain ⟨t2, ht2⟩ := List.take_prefix 50
    (dropTrailingHyphens
      (dropLeadingHyphens
        (collapseRuns (· = '-')
          (collapseRuns isJsSpace
            ((s.data.map jsToLower).filter
              (fun c => isWordChar c || isJsSpace c || c = '-')) false) false)))
  rw [← ht2] at h2
  exact hasDoubleHyphen_prefix _ _ h2

theorem generateSlug_length_le (s : String) :
    (generateSlug s).data.length ≤ 50 := by
  rw [generateSlug_data, List.length_take]
  omega

/-! ### Claim theorems -/

/-- C7: `getNextSteps(workflowType, currentStage, currentStageComplete)`
equals the spec's reference algorithm over the resolved step list: the
unknown-stage branch resets to the first step, and the found branch uses
the advance index for `isComplete`, `nextStep` and `remainingSteps`
exactly as the spec words it. -/
theorem c7_getNextSteps_matches_spec (cfg : WorkflowsConfig)
    (workflowType currentPhase : String) (completed : Bool) :
    getNextSteps cfg workflowType currentPhase completed =
      specNextSteps (getWorkflowSteps cfg workflowType) currentPhase
        completed := by
  unfold getNextSteps getNextStepsFromSteps specNextSteps
  generalize (getWorkflowSteps cfg workflowType) = steps
  cases hidx : steps.findIdx? (· = currentPhase) with
  | none =>
      dsimp only
      by_cases hl : 1 < steps.length
      · rw [if_pos hl]
      · have hnone : steps[1]? = none := List.getElem?_eq_none (by omega)
        rw [if_neg hl, hnone]
  | some ci =>
      dsimp only
      cases completed with
      | true => simp [advanceIdx]
      | false =>
          have hiff : (ci < steps.length - 1) ↔ (ci + 1 < steps.length) := by
            omega
          simp [advanceIdx, hiff]

/-- C7 witness: the spec's own example, `getNextSteps` on the built-in
`medium` workflow at a completed `scope_analysis`. -/
theorem c7_witness :
    getNextSteps
      ⟨[("medium",
          ⟨"Medium-sized tasks requiring full analysis and design",
            ["scope_analysis", "context_gathering", "solution_design",
             "implementation", "validation", "documentation"]⟩)],
        ⟨"Default workflow for unspecified workflow types",
          ["scope_analysis", "context_gathering", "solution_design",
           "implementation", "validation"]⟩⟩
      "medium" "scope_analysis" true =
      specNextSteps
        ["scope_analysis", "context_gathering", "solution_design",
         "implementation", "validation", "documentation"]
        "scope_analysis" true ∧
    (specNextSteps
        ["scope_analysis", "context_gathering", "solution_design",
         "implementation", "validation", "documentation"]
        "scope_analysis" true).nextStep = some "context_gathering" := by
  constructor
  · exact c7_getNextSteps_matches_spec _ "medium" "scope_analysis" true
  · decide

/-- C8 (amended): for every input string, the `generateSlug` output
contains only characters from `[a-z0-9_-]` (underscores pass the `\w`
filter, so the class `[a-z0-9-]` claimed by the spec is too small), has no
leading hyphen, has no two consecutive hyphens, and has length at most 50;
a trailing hyphen can survive because the truncation to 50 characters is
applied after the edge strip. -/
theorem c8_generateSlug_sanitized (s : String) :
    (∀ c ∈ (generateSlug s).data, isSlugChar c = true) ∧
    (generateSlug s).data.head? ≠ some '-' ∧
    hasDoubleHyphen (generateSlug s).data = false ∧
    (generateSlug s).data.length ≤ 50 :=
  ⟨generateSlug_chars s, generateSlug_no_leading_hyphen s,
    generateSlug_noDouble s, generateSlug_length_le s⟩

/-- C8 witness: the amended bound evaluated on a concrete input. -/
theorem c8_witness :
    (generateSlug "Hello World").data.head? ≠ some '-' ∧
    (generateSlug "Hello World").data.length ≤ 50 :=
  ⟨(c8_generateSlug_sanitized "Hello World").2.1,
    (c8_generateSlug_sanitized "Hello World").2.2.2⟩

/-- C8 counterexample: on `slugEdgeInput` the output keeps an underscore
(outside `[a-z0-9-]`) and ends in a hyphen, so the claim's property fails
at this input. -/
theorem c8_counterexample :
    generateSlug slugEdgeInput = slugEdgeOutput ∧
    slugClaimOk (generateSlug slugEdgeInput).data = false := by
  constructor
  · decide
  · decide

theorem missingStagesList_mem (progress : List (String × Obj))
    (ci ti : Nat) (hle : ci ≤ ti) (s : String) :
    s ∈ missingStagesList progress ci ti ↔
      ((∃ i, STAGE_ORDER s = some i ∧ ci ≤ i ∧ i < ti) ∧
        (objGet progress s).isSome = true ∧
        isStageComplete progress s = false) := by
  unfold missingStagesList
  rw [List.mem_filter, List.mem_filterMap]
  constructor
  · rintro ⟨⟨i, hi, hget⟩, hcond⟩
    rw [List.mem_range'_1] at hi
    simp only [Bool.and_eq_true, Bool.not_eq_true'] at hcond
    refine ⟨⟨i, getElem_stageOrder i s hget, hi.1, ?_⟩, hcond.1, hcond.2⟩
    omega
  · rintro ⟨⟨i, hord, hci, hti⟩, hsome, hcomp⟩
    refine ⟨⟨i, ?_, stageOrder_getElem s i hord⟩, ?_⟩
    · rw [List.mem_range'_1]
      omega
    · simp only [Bool.and_eq_true, Bool.not_eq_true']
      exact ⟨hsome, hcomp⟩

theorem updateStageSection_spec (progress : List (String × Obj))
    (stage : String) (sd : List (String × Value))
    (hnd : (sd.map Prod.fst).Nodup) :
    ∃ sp', objGet (updateStageSection progress stage sd) stage = some sp' ∧
      (∀ kv ∈ sd, objGet sp' kv.1 =
        some (mergeValue
          (objGet ((objGet progress stage).getD (createStageProgress stage))
            kv.1) kv.2)) ∧
      (∀ k, k ∉ sd.map Prod.fst →
        objGet sp' k =
          objGet ((objGet progress stage).getD (createStageProgress stage))
            k) := by
  unfold updateStageSection
  cases hp : objGet progress stage with
  | some sp =>
      rw [if_pos (by simp [hp])]
      simpa [hp] using foldl_sectionStep_spec stage sd progress sp hp hnd
  | none =>
      rw [if_neg (by simp [hp])]
      have hbase : objGet (setKey progress stage (createStageProgress stage))
          stage = some (createStageProgress stage) := objGet_setKey_self _ _ _
      simpa [hp] using foldl_sectionStep_spec stage sd _ _ hbase hnd

theorem mergeValue_replace (old : Option Value) (v : Value) :
    mergeValue old v = v ∨
      ∃ a b, old = some (.vObj a) ∧ v = .vObj b := by
  rcases old with _ | w
  · exact Or.inl rfl
  · cases w <;> cases v <;>
      first
        | exact Or.inl rfl
        | exact Or.inr ⟨_, _, rfl, rfl⟩

/-- C4: the merge applied by `updateStage` sets, for each key of
`sectionData`, the spread-merge of old and new when both are non-array
mappings (new sub-keys overwriting, untouched old sub-keys surviving, and
sub-values taken wholesale from the new mapping — no deeper recursion),
and the new value wholesale otherwise; consequently two successive updates
with `{findings: {a: 1}}` then `{findings: {b: 2}}` yield
`findings == {a: 1, b: 2}` while two successive `checklist` arrays leave
only the second. -/
theorem c4_section_merge_policy :
    (∀ (progress : List (String × Obj)) (stage : String)
        (sd : List (String × Value)), (sd.map Prod.fst).Nodup →
      ∃ sp', objGet (updateStageSection progress stage sd) stage = some sp' ∧
        (∀ kv ∈ sd, objGet sp' kv.1 =
          some (mergeValue
            (objGet ((objGet progress stage).getD (createStageProgress stage))
              kv.1) kv.2)) ∧
        (∀ k, k ∉ sd.map Prod.fst →
          objGet sp' k =
            objGet ((objGet progress stage).getD (createStageProgress stage))
              k)) ∧
    (∀ a b, mergeValue (some (.vObj a)) (.vObj b) = .vObj (objMerge a b)) ∧
    (∀ a b k, (b.map Prod.fst).Nodup →
      objGet (objMerge a b) k =
        match objGet b k with
        | some v => some v
        | none => objGet a k) ∧
    (∀ (old : Option Value) (v : Value),
      mergeValue old v = v ∨ ∃ a b, old = some (.vObj a) ∧ v = .vObj b) ∧
    storedStageField
      (updateStage
        (updateStage (.parsed scopePlan) "plan.yaml" "scope_analysis"
          { sectionData := some [("findings", .vObj [("a", .vNum 1)])] }
          "t1").2
        "plan.yaml" "scope_analysis"
        { sectionData := some [("findings", .vObj [("b", .vNum 2)])] }
        "t2").2
      "scope_analysis" "findings" =
        some (.vObj [("a", .vNum 1), ("b", .vNum 2)]) ∧
    storedStageField
      (updateStage
        (updateStage (.parsed designPlan) "plan.yaml" "solution_design"
          { sectionData := some [("checklist",
              .vArr [.vObj [("task", .vStr "one"), ("complete", .vBool false)]])] }
          "t1").2
        "plan.yaml" "solution_design"
        { sectionData := some [("checklist",
            .vArr [.vObj [("task", .vStr "two"), ("complete", .vBool false)]])] }
        "t2").2
      "solution_design" "checklist" =
        some (.vArr [.vObj [("task", .vStr "two"), ("complete", .vBool false)]]) := by
  refine ⟨updateStageSection_spec, fun a b => rfl,
    fun a b k hnd => objGet_objMerge a b k hnd, mergeValue_replace, ?_, ?_⟩
  · rfl
  · rfl

/-- C4 witness: the per-key merge characterisation applied at a concrete
stage record and section payload. -/
theorem c4_witness :
    ∃ sp', objGet
        (updateStageSection
          [("scope_analysis", [("complete", Value.vBool false),
            ("findings", Value.vObj [("a", Value.vNum 1)])])]
          "scope_analysis" [("findings", Value.vObj [("b", Value.vNum 2)])])
        "scope_analysis" = some sp' ∧
      (∀ kv ∈ [("findings", Value.vObj [("b", Value.vNum 2)])],
        objGet sp' kv.1 =
          some (mergeValue
            (objGet ((objGet
              [("scope_analysis", [("complete", Value.vBool false),
                ("findings", Value.vObj [("a", Value.vNum 1)])])]
              "scope_analysis").getD (createStageProgress "scope_analysis"))
              kv.1) kv.2)) ∧
      (∀ k, k ∉ [("findings", Value.vObj [("b", Value.vNum 2)])].map Prod.fst →
        objGet sp' k =
          objGet ((objGet
            [("scope_analysis", [("complete", Value.vBool false),
              ("findings", Value.vObj [("a", Value.vNum 1)])])]
            "scope_analysis").getD (createStageProgress "scope_analysis")) k) :=
  c4_section_merge_policy.1
    [("scope_analysis", [("complete", Value.vBool false),
      ("findings", Value.vObj [("a", Value.vNum 1)])])]
    "scope_analysis" [("findings", Value.vObj [("b", Value.vNum 2)])]
    (by simp)

/-- C2 (amended): when both stages are standard and
`targetIndex > currentIndex + 1`, the `missingStages` list collected by
`validateStage` consists exactly of the standard stages with canonical
index `i` satisfying `currentIndex ≤ i < targetIndex` that are present in
the plan's progress map and not marked complete — the loop starts at the
current index, so the current stage itself is a member whenever it is
present and incomplete (contrary to the claim's "strictly between"). -/
theorem c2_missingStages_characterisation (p : Plan) (target : String)
    (ci ti : Nat) (hc : STAGE_ORDER p.phase = some ci)
    (ht : STAGE_ORDER target = some ti) (hgt : ti > ci + 1) :
    (∀ s, s ∈ missingStagesList p.progress ci ti ↔
      ((∃ i, STAGE_ORDER s = some i ∧ ci ≤ i ∧ i < ti) ∧
        (objGet p.progress s).isSome = true ∧
        isStageComplete p.progress s = false)) ∧
    ((objGet p.progress p.phase).isSome = true →
      isStageComplete p.progress p.phase = false →
      p.phase ∈ missingStagesList p.progress ci ti) := by
  have hchar := missingStagesList_mem p.progress ci ti (by omega)
  refine ⟨hchar, fun hsome hcomp => ?_⟩
  exact (hchar p.phase).mpr ⟨⟨ci, hc, le_refl ci, by omega⟩, hsome, hcomp⟩

/-- C2 witness: the characterisation applied to a plan sitting at an
incomplete `scope_analysis` with target `solution_design`. -/
theorem c2_witness :
    "scope_analysis" ∈ missingStagesList
      [("scope_analysis", [("complete", Value.vBool false)]),
       ("context_gathering", [("complete", Value.vBool true)])] 0 2 :=
  (c2_missingStages_characterisation
    { phase := "scope_analysis",
      progress := [("scope_analysis", [("complete", Value.vBool false)]),
        ("context_gathering", [("complete", Value.vBool true)])] }
    "solution_design" 0 2 rfl rfl (by omega)).2 rfl rfl

/-- C2 counterexample: with `scope_analysis` present and incomplete but
`context_gathering` (the only stage strictly between) complete, the
spec-worded set is empty yet the code's `missingStages` is
`["scope_analysis"]`, and `validateStage` without force fails — the
current stage itself is collected, contrary to the claim. -/
theorem c2_counterexample :
    missingStagesList
      [("scope_analysis", [("complete", Value.vBool false)]),
       ("context_gathering", [("complete", Value.vBool true)])] 0 2 =
      ["scope_analysis"] ∧
    specMissingStagesBetween
      [("scope_analysis", [("complete", Value.vBool false)]),
       ("context_gathering", [("complete", Value.vBool true)])] 0 2 = [] ∧
    STAGE_ORDER "scope_analysis" = some 0 ∧
    STAGE_ORDER "solution_design" = some 2 ∧
    validateStage
      { phase := "scope_analysis",
        progress := [("scope_analysis", [("complete", Value.vBool false)]),
          ("context_gathering", [("complete", Value.vBool true)])] }
      "solution_design" false [] =
      .error (stageOrderMsg "solution_design" ["scope_analysis"]) := by
  refine ⟨rfl, rfl, rfl, rfl, rfl⟩

/-- C5: after every successful `updateStage` run, if every key of the
(post-update) progress map is complete the status is `completed` with the
"all stages complete" warning; otherwise a plan loaded as `completed` is
reset to `active` with a warning; otherwise the status is unchanged. -/
theorem c5_status_recomputation (rp : RawPlan) (pf target : String)
    (opts : UpdateOptions) (now : String) (p' : Plan) (ws : List String)
    (h : runUpdate (.parsed rp) pf target opts now = .ok (p', ws)) :
    (allStagesComplete p'.progress = true →
      p'.status = some "completed" ∧ allCompleteWarning ∈ ws) ∧
    (allStagesComplete p'.progress = false → rp.status = some "completed" →
      p'.status = some "active" ∧ statusToActiveWarning ∈ ws) ∧
    (allStagesComplete p'.progress = false → rp.status ≠ some "completed" →
      p'.status = rp.status) := by
  obtain ⟨ws1, hv, hu, hps⟩ := runUpdate_parsed_ok _ _ _ _ _ _ _ h
  obtain ⟨prog3, hcm, hphase, hprog, _, _, _, _, _, hst⟩ :=
    updatePlanStructure_ok _ _ _ _ _ _ _ hu
  have hstatus : (normalizePlan rp).status = rp.status := rfl
  rw [hprog]
  rcases hst with ⟨hall, hstat, hws⟩ | ⟨hall, hcomp, hstat, hws⟩ |
    ⟨hall, hcomp, hstat, hws⟩
  · refine ⟨fun _ => ⟨hstat, by simp [hws]⟩, ?_, ?_⟩
    · intro hf
      rw [hall] at hf
      exact absurd hf (by simp)
    · intro hf
      rw [hall] at hf
      exact absurd hf (by simp)
  · rw [hstatus] at hcomp
    refine ⟨?_, fun _ _ => ⟨hstat, by simp [hws]⟩, ?_⟩
    · intro hf
      rw [hf] at hall
      exact absurd hall (by simp)
    · intro _ hne
      exact absurd hcomp hne
  · rw [hstatus] at hcomp hstat
    refine ⟨?_, ?_, fun _ _ => hstat⟩
    · intro hf
      rw [hf] at hall
      exact absurd hall (by simp)
    · intro _ hcomp2
      exact absurd hcomp2 hcomp

/-- C5 witness: completing the only stage of `scopePlan` flips the status
to `completed`, by the claim theorem applied at that concrete run. -/
theorem c5_witness :
    runUpdate (.parsed scopePlan) "plan.yaml" "scope_analysis" {} "t1" =
      .ok (scopePlanDone, [allCompleteWarning]) ∧
    (allStagesComplete scopePlanDone.progress = true →
      scopePlanDone.status = some "completed" ∧
        allCompleteWarning ∈ [allCompleteWarning]) :=
  ⟨rfl,
    (c5_status_recomputation scopePlan "plan.yaml" "scope_analysis" {} "t1"
      scopePlanDone [allCompleteWarning] rfl).1⟩

theorem progAfterComplete_objGet_ne (p : Plan) (target : String)
    (opts : UpdateOptions) (prog3 : List (String × Obj)) (k : String)
    (h : progAfterComplete p target opts = .ok prog3) (hk : k ≠ target) :
    objGet prog3 k = objGet (progAfterSection p target opts) k := by
  unfold progAfterComplete at h
  by_cases hm : opts.markComplete
  · rw [if_pos hm] at h
    cases hg : objGet (progAfterSection p target opts) target with
    | some fs =>
        rw [hg] at h
        injection h with h1
        rw [← h1, objGet_setKey_ne _ _ _ _ hk]
    | none =>
        rw [hg] at h
        exact absurd h (by simp)
  · rw [if_neg hm] at h
    injection h with h1
    rw [← h1]

theorem progAfterSection_objGet_ne (p : Plan) (target : String)
    (opts : UpdateOptions) (k : String) (hk : k ≠ target) :
    objGet (progAfterSection p target opts) k =
      objGet (progAfterMark p target) k := by
  unfold progAfterSection
  cases opts.sectionData with
  | some sd => exact updateStageSection_objGet_ne _ _ _ _ hk
  | none => rfl

theorem progAfterMark_objGet (p : Plan) (target : String) (ci ti : Nat)
    (hc : STAGE_ORDER p.phase = some ci) (ht : STAGE_ORDER target = some ti)
    (hgt : ci < ti) (k : String) :
    objGet (progAfterMark p target) k =
      if ∃ i, STAGE_ORDER k = some i ∧ i < ti then
        (objGet p.progress k).map (fun fs => setKey fs "complete" (.vBool true))
      else objGet p.progress k := by
  unfold progAfterMark
  rw [hc, ht]
  dsimp only
  rw [if_pos (show ti > ci from hgt)]
  exact markStagesBefore_objGet p.progress ti k

theorem isStageComplete_of_marked (prog : List (String × Obj)) (s : String)
    (fs : Obj) (h : objGet prog s = some (setKey fs "complete" (.vBool true))) :
    isStageComplete prog s = true := by
  unfold isStageComplete
  rw [h]
  dsimp only
  rw [objGet_setKey_self]

/-- C3: on every successful `updateStage` run with both stages standard
and `targetIndex > currentIndex`, the final phase is the target, every
standard stage with canonical index below the target index that is present
in the progress map ends up `complete = true`, and the marking creates no
progress entry (presence below the target index is unchanged). -/
theorem c3_forward_marks_prior_stages (rp : RawPlan) (pf target : String)
    (opts : UpdateOptions) (now : String) (p' : Plan) (ws : List String)
    (ci ti : Nat)
    (h : runUpdate (.parsed rp) pf target opts now = .ok (p', ws))
    (hc : STAGE_ORDER (normalizePlan rp).phase = some ci)
    (ht : STAGE_ORDER target = some ti) (hgt : ci < ti) :
    p'.phase = target ∧
    (∀ s i, STAGE_ORDER s = some i → i < ti →
      ((objGet (normalizePlan rp).progress s).isSome = true →
        isStageComplete p'.progress s = true) ∧
      ((objGet p'.progress s).isSome =
        (objGet (normalizePlan rp).progress s).isSome)) := by
  obtain ⟨ws1, hv, hu, hps⟩ := runUpdate_parsed_ok _ _ _ _ _ _ _ h
  obtain ⟨prog3, hcm, hphase, hprog, _, _, _, _, _, _⟩ :=
    updatePlanStructure_ok _ _ _ _ _ _ _ hu
  refine ⟨hphase, fun s i hsi hlt => ?_⟩
  have hne : s ≠ target := by
    intro hEq
    rw [hEq, ht] at hsi
    injection hsi with hsi
    omega
  have hobj : objGet p'.progress s =
      (objGet (normalizePlan rp).progress s).map
        (fun fs => setKey fs "complete" (.vBool true)) := by
    rw [hprog, progAfterComplete_objGet_ne _ _ _ _ _ hcm hne,
      progAfterSection_objGet_ne _ _ _ _ hne,
      progAfterMark_objGet _ _ ci ti hc ht hgt s, if_pos ⟨i, hsi, hlt⟩]
  constructor
  · intro hsome
    cases hg : objGet (normalizePlan rp).progress s with
    | none => rw [hg] at hsome; exact absurd hsome (by simp)
    | some fs =>
        apply isStageComplete_of_marked _ _ fs
        rw [hobj, hg]
        rfl
  · rw [hobj]
    cases objGet (normalizePlan rp).progress s <;> simp

/-- C3 witness: advancing `twoStagePlan` from `scope_analysis` to
`context_gathering` marks `scope_analysis` complete and sets the phase, by
the claim theorem applied at that concrete run. -/
theorem c3_witness :
    runUpdate (.parsed twoStagePlan) "plan.yaml" "context_gathering" {} "t1" =
      .ok (twoStagePlanDone, [allCompleteWarning]) ∧
    twoStagePlanDone.phase = "context_gathering" ∧
    isStageComplete twoStagePlanDone.progress "scope_analysis" = true := by
  refine ⟨rfl, ?_, ?_⟩
  · exact (c3_forward_marks_prior_stages twoStagePlan "plan.yaml"
      "context_gathering" {} "t1" twoStagePlanDone [allCompleteWarning] 0 1
      rfl rfl rfl (by omega)).1
  · exact (((c3_forward_marks_prior_stages twoStagePlan "plan.yaml"
      "context_gathering" {} "t1" twoStagePlanDone [allCompleteWarning] 0 1
      rfl rfl rfl (by omega)).2 "scope_analysis" 0 rfl (by omega)).1 rfl)

/-! ### Helpers for the end-to-end force / markComplete claims -/

theorem opt_isNone_false {α : Type} {o : Option α} (h : o.isSome = true) :
    o.isNone = false := by
  cases o
  · simp at h
  · rfl

theorem contains_of_stageOrder (target : String) (ti : Nat)
    (ht : STAGE_ORDER target = some ti) :
    VALID_STAGES.contains target = true := by
  have hmem : target ∈ VALID_STAGES :=
    List.getElem?_mem (stageOrder_getElem target ti ht)
  exact List.elem_eq_true_of_mem hmem

theorem mem_statusWarnings (p : Plan) (ws : List String) (w : String)
    (h : w ∈ ws) : w ∈ statusWarnings p ws := by
  unfold statusWarnings
  split
  · exact List.mem_append_left _ h
  · split
    · exact List.mem_append_left _ h
    · exact h

theorem validateStage_jump_error (p : Plan) (target : String) (ci ti : Nat)
    (hc : STAGE_ORDER p.phase = some ci) (ht : STAGE_ORDER target = some ti)
    (hgt : ti > ci + 1) (hne : missingStagesList p.progress ci ti ≠ []) :
    validateStage p target false [] =
      .error (stageOrderMsg target (missingStagesList p.progress ci ti)) := by
  unfold validateStage validateStageOrder
  have hcont : VALID_STAGES.contains target = true :=
    contains_of_stageOrder target ti ht
  rw [hcont, hc, ht]
  simp only [Bool.not_true, Bool.not_false, Bool.false_and, Bool.false_eq_true,
    if_false]
  rw [if_neg (by omega), if_pos hgt, if_pos (List.length_pos.mpr hne)]

theorem validateStage_jump_force (p : Plan) (target : String) (ci ti : Nat)
    (hc : STAGE_ORDER p.phase = some ci) (ht : STAGE_ORDER target = some ti)
    (hgt : ti > ci + 1) (hne : missingStagesList p.progress ci ti ≠ []) :
    validateStage p target true [] =
      .ok (statusWarnings p
        [forcingJumpWarning target (missingStagesList p.progress ci ti)]) := by
  unfold validateStage validateStageOrder
  have hcont : VALID_STAGES.contains target = true :=
    contains_of_stageOrder target ti ht
  rw [hcont, hc, ht]
  simp only [Bool.not_true, Bool.not_false, Bool.false_and, Bool.and_false,
    Bool.false_eq_true, if_false]
  rw [if_neg (by omega), if_pos hgt, if_pos (List.length_pos.mpr hne),
    List.nil_append, if_pos trivial]

theorem progAfterMark_isSome (p : Plan) (target k : String) :
    (objGet (progAfterMark p target) k).isSome =
      (objGet p.progress k).isSome := by
  unfold progAfterMark
  cases STAGE_ORDER p.phase with
  | none => rfl
  | some ci =>
      cases STAGE_ORDER target with
      | none => rfl
      | some ti =>
          dsimp only
          split
          · rw [markStagesBefore_objGet]
            split
            · cases objGet p.progress k <;> rfl
            · rfl
          · rfl

theorem progAfterSection_target_isSome (p : Plan) (target : String)
    (opts : UpdateOptions)
    (hdisj : (objGet p.progress target).isSome = true ∨
      opts.sectionData.isSome = true) :
    (objGet (progAfterSection p target opts) target).isSome = true := by
  unfold progAfterSection
  cases hsd : opts.sectionData with
  | some sd => exact updateStageSection_target_isSome _ _ _
  | none =>
      rcases hdisj with hpres | habs
      · rw [progAfterMark_isSome]
        exact hpres
      · rw [hsd] at habs
        simp at habs

theorem progAfterComplete_ok_of_target (p : Plan) (target : String)
    (opts : UpdateOptions) (hm : opts.markComplete = true)
    (hs : (objGet (progAfterSection p target opts) target).isSome = true) :
    ∃ fs, objGet (progAfterSection p target opts) target = some fs ∧
      progAfterComplete p target opts =
        .ok (setKey (progAfterSection p target opts) target
          (setKey fs "complete" (.vBool true))) := by
  cases hg : objGet (progAfterSection p target opts) target with
  | none =>
      rw [hg] at hs
      simp at hs
  | some fs =>
      refine ⟨fs, rfl, ?_⟩
      unfold progAfterComplete
      rw [if_pos hm, hg]

theorem entriesHaveComplete_progAfterMark (p : Plan) (target : String)
    (hp : entriesHaveComplete p.progress) :
    entriesHaveComplete (progAfterMark p target) := by
  unfold progAfterMark
  cases STAGE_ORDER p.phase with
  | none => exact hp
  | some ci =>
      cases STAGE_ORDER target with
      | none => exact hp
      | some ti =>
          dsimp only
          split
          · exact entriesHaveComplete_foldl_markStep _ _ hp
          · exact hp

theorem entriesHaveComplete_progAfterSection (p : Plan) (target : String)
    (opts : UpdateOptions) (hp : entriesHaveComplete p.progress) :
    entriesHaveComplete (progAfterSection p target opts) := by
  unfold progAfterSection
  cases opts.sectionData with
  | some sd =>
      exact entriesHaveComplete_updateStageSection _ _ _
        (entriesHaveComplete_progAfterMark p target hp)
  | none => exact entriesHaveComplete_progAfterMark p target hp

theorem entriesHaveComplete_progAfterComplete (p : Plan) (target : String)
    (opts : UpdateOptions) (prog3 : List (String × Obj))
    (h : progAfterComplete p target opts = .ok prog3)
    (hp : entriesHaveComplete p.progress) : entriesHaveComplete prog3 := by
  have hsec := entriesHaveComplete_progAfterSection p target opts hp
  unfold progAfterComplete at h
  by_cases hm : opts.markComplete
  · rw [if_pos hm] at h
    cases hg : objGet (progAfterSection p target opts) target with
    | none =>
        rw [hg] at h
        exact absurd h (by simp)
    | some fs =>
        rw [hg] at h
        injection h with h1
        rw [← h1]
        apply entriesHaveComplete_setKey _ _ _ hsec
        simp [objGet_setKey_self]
  · rw [if_neg hm] at h
    injection h with h1
    rw [← h1]
    exact hsec

theorem updatePlanStructure_ok_of (p : Plan) (target : String)
    (opts : UpdateOptions) (ws : List String) (now : String)
    (prog3 : List (String × Obj))
    (h : progAfterComplete p target opts = .ok prog3) :
    ∃ st ws', updatePlanStructure p target opts ws now =
        .ok ({ p with
                phase := target
                progress := prog3
                status := st
                updated := some (.vStr now) }, ws') ∧
      (st = some "completed" ∨ st = some "active" ∨ st = p.status) ∧
      (ws' = ws ++ [allCompleteWarning] ∨
        ws' = ws ++ [statusToActiveWarning] ∨ ws' = ws) := by
  unfold updatePlanStructure
  rw [h]
  dsimp only
  by_cases hall : allStagesComplete prog3 = true
  · rw [if_pos hall]
    exact ⟨some "completed", ws ++ [allCompleteWarning], rfl, Or.inl rfl,
      Or.inl rfl⟩
  · rw [if_neg hall]
    by_cases hcs : p.status = some "completed"
    · rw [if_pos hcs]
      exact ⟨some "active", ws ++ [statusToActiveWarning], rfl,
        Or.inr (Or.inl rfl), Or.inr (Or.inl rfl)⟩
    · rw [if_neg hcs]
      exact ⟨p.status, ws, rfl, Or.inr (Or.inr rfl), Or.inr (Or.inr rfl)⟩

theorem validatePlanStructure_ok_of (p : Plan)
    (h1 : p.task.isSome = true) (h2 : p.slug.isSome = true)
    (h3 : p.workflow.isSome = true) (h4 : p.status.isSome = true)
    (h5 : p.created.isSome = true) (h6 : p.updated.isSome = true)
    (h7 : entriesHaveComplete p.progress) :
    validatePlanStructure p = .ok () := by
  unfold validatePlanStructure
  rw [if_neg (by simp [opt_isNone_false h1]),
    if_neg (by simp [opt_isNone_false h2]),
    if_neg (by simp [opt_isNone_false h3]),
    if_neg (by simp [opt_isNone_false h4]),
    if_neg (by simp [opt_isNone_false h5]),
    if_neg (by simp [opt_isNone_false h6])]
  have hf : p.progress.find? (fun e => (objGet e.2 "complete").isNone) = none :=
    List.find?_eq_none.mpr (fun x hx => by
      simp [opt_isNone_false (h7 x hx)])
  rw [hf]

/-- C6: `updateStage` is all-or-nothing — whenever the result reports
failure (plan not found, corrupt file, stage-order violation, invalid
record structure, or the internal `TypeError`), the stored file is exactly
what it was before the call; the file is rewritten only after load,
validation, the in-memory update and the pre-save validation all
succeed. -/
theorem c6_failure_is_atomic (file : FileState) (pf target : String)
    (opts : UpdateOptions) (now : String)
    (h : (updateStage file pf target opts now).1.success = false) :
    (updateStage file pf target opts now).2 = file :=
  updateStage_failure_file_unchanged file pf target opts now h

/-- C6 witness: a call on a missing plan file fails and leaves the (still
missing) file untouched. -/
theorem c6_witness :
    (updateStage .missing "plan.yaml" "scope_analysis" {} "t1").1.success =
      false ∧
    (updateStage .missing "plan.yaml" "scope_analysis" {} "t1").2 =
      .missing :=
  ⟨rfl, c6_failure_is_atomic .missing "plan.yaml" "scope_analysis" {} "t1" rfl⟩

/-- C1 (amended): with both stages standard, `targetIndex > currentIndex
+ 1`, and some standard stage strictly between them present in `progress`
and incomplete, `updateStage` without force fails with the stage-order
message naming the target and the missing stages and pointing at
`--force`, leaving the file unchanged; the same call with `force = true`
succeeds with a "forcing jump" warning in the returned warnings — provided
the required top-level fields are present, every progress entry has a
`complete` field, and the target stage is present in `progress` or
`sectionData` is supplied (otherwise the forced call itself fails with a
`TypeError` when `markComplete` dereferences the absent target entry). -/
theorem c1_stage_order_violation_and_force (rp : RawPlan)
    (pf target : String) (sd : Option (List (String × Value))) (now : String)
    (ci ti : Nat)
    (hc : STAGE_ORDER (normalizePlan rp).phase = some ci)
    (ht : STAGE_ORDER target = some ti) (hgt : ti > ci + 1)
    (hmiss : ∃ s i, STAGE_ORDER s = some i ∧ ci < i ∧ i < ti ∧
      (objGet (normalizePlan rp).progress s).isSome = true ∧
      isStageComplete (normalizePlan rp).progress s = false) :
    ((updateStage (.parsed rp) pf target ⟨false, true, sd⟩ now).1 =
        { success := false,
          error := some (stageOrderMsg target
            (missingStagesList (normalizePlan rp).progress ci ti)) } ∧
      missingStagesList (normalizePlan rp).progress ci ti ≠ [] ∧
      (updateStage (.parsed rp) pf target ⟨false, true, sd⟩ now).2 =
        .parsed rp) ∧
    (rp.task.isSome = true → rp.slug.isSome = true →
      rp.workflow.isSome = true → rp.status.isSome = true →
      rp.created.isSome = true →
      entriesHaveComplete (normalizePlan rp).progress →
      ((objGet (normalizePlan rp).progress target).isSome = true ∨
        sd.isSome = true) →
      ∃ p' ws,
        runUpdate (.parsed rp) pf target ⟨true, true, sd⟩ now = .ok (p', ws) ∧
        forcingJumpWarning target
          (missingStagesList (normalizePlan rp).progress ci ti) ∈ ws ∧
        (updateStage (.parsed rp) pf target ⟨true, true, sd⟩ now).1.success =
          true ∧
        (updateStage (.parsed rp) pf target ⟨true, true, sd⟩ now).1.warnings =
          some ws) := by
  have hne : missingStagesList (normalizePlan rp).progress ci ti ≠ [] := by
    obtain ⟨s, i, hord, hci, hti, hsome, hcomp⟩ := hmiss
    exact List.ne_nil_of_mem
      ((missingStagesList_mem _ ci ti (by omega) s).mpr
        ⟨⟨i, hord, by omega, hti⟩, hsome, hcomp⟩)
  constructor
  · have hv := validateStage_jump_error (normalizePlan rp) target ci ti hc ht
      hgt hne
    have hrun : runUpdate (.parsed rp) pf target ⟨false, true, sd⟩ now =
        .error (stageOrderMsg target
          (missingStagesList (normalizePlan rp).progress ci ti)) := by
      unfold runUpdate loadPlan
      dsimp only
      rw [hv]
    rw [updateStage_of_runUpdate_error _ _ _ _ _ _ hrun]
    exact ⟨rfl, hne, rfl⟩
  · intro h1 h2 h3 h4 h5 h7 hdisj
    have hv := validateStage_jump_force (normalizePlan rp) target ci ti hc ht
      hgt hne
    have hs2 : (objGet
        (progAfterSection (normalizePlan rp) target ⟨true, true, sd⟩)
        target).isSome = true :=
      progAfterSection_target_isSome _ _ _ hdisj
    obtain ⟨fs, hg, hcm⟩ :=
      progAfterComplete_ok_of_target (normalizePlan rp) target
        ⟨true, true, sd⟩ rfl hs2
    obtain ⟨st, ws', hu, hstp, hwsp⟩ :=
      updatePlanStructure_ok_of (normalizePlan rp) target ⟨true, true, sd⟩
        (statusWarnings (normalizePlan rp)
          [forcingJumpWarning target
            (missingStagesList (normalizePlan rp).progress ci ti)])
        now _ hcm
    have hstsome : st.isSome = true := by
      rcases hstp with h | h | h
      · rw [h]; rfl
      · rw [h]; rfl
      · rw [h]; exact h4
    have hvp : validatePlanStructure
        ({ normalizePlan rp with
            phase := target
            progress := setKey
              (progAfterSection (normalizePlan rp) target ⟨true, true, sd⟩)
              target (setKey fs "complete" (.vBool true))
            status := st
            updated := some (.vStr now) } : Plan) = .ok () := by
      apply validatePlanStructure_ok_of
      · exact h1
      · exact h2
      · exact h3
      · exact hstsome
      · exact h5
      · rfl
      · exact entriesHaveComplete_progAfterComplete _ _ _ _ hcm h7
    have hrun2 := runUpdate_parsed_ok_of_steps rp pf target ⟨true, true, sd⟩
      now _ _ ws' hv hu hvp
    have hmemws : forcingJumpWarning target
        (missingStagesList (normalizePlan rp).progress ci ti) ∈ ws' := by
      have hbase := mem_statusWarnings (normalizePlan rp)
        [forcingJumpWarning target
          (missingStagesList (normalizePlan rp).progress ci ti)]
        _ (List.mem_singleton_self _)
      rcases hwsp with h | h | h <;> rw [h]
      · exact List.mem_append_left _ hbase
      · exact List.mem_append_left _ hbase
      · exact hbase
    have hlen : ws'.length > 0 := List.length_pos.mpr
      (List.ne_nil_of_mem hmemws)
    refine ⟨_, ws', hrun2, hmemws, ?_, ?_⟩
    · rw [updateStage_of_runUpdate_ok _ _ _ _ _ _ _ hrun2]
    · rw [updateStage_of_runUpdate_ok _ _ _ _ _ _ _ hrun2]
      dsimp only
      rw [if_pos hlen]

/-- C1 witness: the amended claim applied to `twoStagePlan` with target
`validation` and a (empty-object) `sectionData`, which makes the forced
call succeed. -/
theorem c1_witness :
    ((updateStage (.parsed twoStagePlan) "plan.yaml" "validation"
        ⟨false, true, some []⟩ "t1").1 =
      { success := false,
        error := some (stageOrderMsg "validation"
          (missingStagesList (normalizePlan twoStagePlan).progress 0 4)) } ∧
      missingStagesList (normalizePlan twoStagePlan).progress 0 4 ≠ [] ∧
      (updateStage (.parsed twoStagePlan) "plan.yaml" "validation"
        ⟨false, true, some []⟩ "t1").2 = .parsed twoStagePlan) ∧
    (∃ p' ws,
      runUpdate (.parsed twoStagePlan) "plan.yaml" "validation"
        ⟨true, true, some []⟩ "t1" = .ok (p', ws) ∧
      forcingJumpWarning "validation"
        (missingStagesList (normalizePlan twoStagePlan).progress 0 4) ∈ ws ∧
      (updateStage (.parsed twoStagePlan) "plan.yaml" "validation"
        ⟨true, true, some []⟩ "t1").1.success = true ∧
      (updateStage (.parsed twoStagePlan) "plan.yaml" "validation"
        ⟨true, true, some []⟩ "t1").1.warnings = some ws) := by
  have h := c1_stage_order_violation_and_force twoStagePlan "plan.yaml"
    "validation" (some []) "t1" 0 4 rfl rfl (by omega)
    ⟨"context_gathering", 1, rfl, by omega, by omega, rfl, rfl⟩
  exact ⟨h.1, h.2 rfl rfl rfl rfl rfl (by decide) (Or.inr rfl)⟩

/-- C1 counterexample: on `twoStagePlan` (a well-formed plan whose
progress map has only the first two stages), jumping to `validation` with
`force = true` and no `sectionData` does NOT succeed — `markComplete`
dereferences the absent `validation` entry and the call fails with a
`TypeError` — even though the claim's hypotheses hold, so the claim's
"the same call with force=true succeeds" is false as stated. -/
theorem c1_counterexample :
    (updateStage (.parsed twoStagePlan) "plan.yaml" "validation"
      ⟨false, true, none⟩ "t1").1.success = false ∧
    (updateStage (.parsed twoStagePlan) "plan.yaml" "validation"
      ⟨true, true, none⟩ "t1").1.success = false ∧
    (updateStage (.parsed twoStagePlan) "plan.yaml" "validation"
      ⟨true, true, none⟩ "t1").1.error = some setCompleteTypeError ∧
    STAGE_ORDER (normalizePlan twoStagePlan).phase = some 0 ∧
    STAGE_ORDER "validation" = some 4 ∧
    STAGE_ORDER "context_gathering" = some 1 ∧
    (objGet (normalizePlan twoStagePlan).progress
      "context_gathering").isSome = true ∧
    isStageComplete (normalizePlan twoStagePlan).progress
      "context_gathering" = false := by
  exact ⟨rfl, rfl, rfl, rfl, rfl, rfl, rfl, rfl⟩

/-- C10 (amended): for a loaded plan and a target stage absent from its
progress map, `updateStage` with no `sectionData` (and the default
`markComplete = true`) always fails — either in validation, or because
marking the absent entry complete raises a `TypeError` — and the stored
record is unchanged; the same call with `sectionData` supplied synthesises
the entry and succeeds, provided the transition validation passes, the
required top-level fields are present, and every progress entry has a
`complete` field (the claim is false without these provisos). -/
theorem c10_absent_target_stage (rp : RawPlan) (pf target : String)
    (force : Bool) (now : String)
    (habs : objGet (normalizePlan rp).progress target = none) :
    ((updateStage (.parsed rp) pf target ⟨force, true, none⟩ now).1.success =
        false ∧
      (updateStage (.parsed rp) pf target ⟨force, true, none⟩ now).2 =
        .parsed rp) ∧
    (∀ sd ws0,
      validateStage (normalizePlan rp) target force [] = .ok ws0 →
      rp.task.isSome = true → rp.slug.isSome = true →
      rp.workflow.isSome = true → rp.status.isSome = true →
      rp.created.isSome = true →
      entriesHaveComplete (normalizePlan rp).progress →
      ∃ p' ws,
        runUpdate (.parsed rp) pf target ⟨force, true, some sd⟩ now =
          .ok (p', ws) ∧
        (updateStage (.parsed rp) pf target ⟨force, true, some sd⟩
          now).1.success = true ∧
        (objGet p'.progress target).isSome = true) := by
  constructor
  · cases hv : validateStage (normalizePlan rp) target force [] with
    | error e =>
        have hrun : runUpdate (.parsed rp) pf target ⟨force, true, none⟩ now =
            .error e := by
          unfold runUpdate loadPlan
          dsimp only
          rw [hv]
        rw [updateStage_of_runUpdate_error _ _ _ _ _ _ hrun]
        exact ⟨rfl, rfl⟩
    | ok ws1 =>
        have habs2 : objGet
            (progAfterSection (normalizePlan rp) target ⟨force, true, none⟩)
            target = none := by
          have hiso : (objGet
              (progAfterSection (normalizePlan rp) target
                ⟨force, true, none⟩) target).isSome = false := by
            unfold progAfterSection
            dsimp only
            rw [progAfterMark_isSome, habs]
            rfl
          cases hx : objGet
              (progAfterSection (normalizePlan rp) target
                ⟨force, true, none⟩) target with
          | none => rfl
          | some v =>
              rw [hx] at hiso
              exact absurd hiso (by simp)
        have hcm : progAfterComplete (normalizePlan rp) target
            ⟨force, true, none⟩ = .error setCompleteTypeError := by
          unfold progAfterComplete
          rw [if_pos rfl, habs2]
        have hu : updatePlanStructure (normalizePlan rp) target
            ⟨force, true, none⟩ ws1 now = .error setCompleteTypeError := by
          unfold updatePlanStructure
          rw [hcm]
        have hrun : runUpdate (.parsed rp) pf target ⟨force, true, none⟩ now =
            .error setCompleteTypeError := by
          unfold runUpdate loadPlan
          dsimp only
          rw [hv]
          dsimp only
          rw [hu]
        rw [updateStage_of_runUpdate_error _ _ _ _ _ _ hrun]
        exact ⟨rfl, rfl⟩
  · intro sd ws0 hv h1 h2 h3 h4 h5 h7
    have hs2 : (objGet
        (progAfterSection (normalizePlan rp) target ⟨force, true, some sd⟩)
        target).isSome = true :=
      progAfterSection_target_isSome _ _ _ (Or.inr rfl)
    obtain ⟨fs, hg, hcm⟩ :=
      progAfterComplete_ok_of_target (normalizePlan rp) target
        ⟨force, true, some sd⟩ rfl hs2
    obtain ⟨st, ws', hu, hstp, hwsp⟩ :=
      updatePlanStructure_ok_of (normalizePlan rp) target
        ⟨force, true, some sd⟩ ws0 now _ hcm
    have hstsome : st.isSome = true := by
      rcases hstp with h | h | h
      · rw [h]; rfl
      · rw [h]; rfl
      · rw [h]; exact h4
    have hvp : validatePlanStructure
        ({ normalizePlan rp with
            phase := target
            progress := setKey
              (progAfterSection (normalizePlan rp) target
                ⟨force, true, some sd⟩)
              target (setKey fs "complete" (.vBool true))
            status := st
            updated := some (.vStr now) } : Plan) = .ok () := by
      apply validatePlanStructure_ok_of
      · exact h1
      · exact h2
      · exact h3
      · exact hstsome
      · exact h5
      · rfl
      · exact entriesHaveComplete_progAfterComplete _ _ _ _ hcm h7
    have hrun2 := runUpdate_parsed_ok_of_steps rp pf target
      ⟨force, true, some sd⟩ now _ _ ws' hv hu hvp
    refine ⟨_, ws', hrun2, ?_, ?_⟩
    · rw [updateStage_of_runUpdate_ok _ _ _ _ _ _ _ hrun2]
    · dsimp only
      rw [objGet_setKey_self]
      rfl

/-- C10 witness: the amended claim applied to `twoStagePlan` with the
absent target `validation` and `force = true` (so that validation passes
and only the `markComplete` dereference distinguishes the two calls). -/
theorem c10_witness :
    ((updateStage (.parsed twoStagePlan) "plan.yaml" "validation"
        ⟨true, true, none⟩ "t1").1.success = false ∧
      (updateStage (.parsed twoStagePlan) "plan.yaml" "validation"
        ⟨true, true, none⟩ "t1").2 = .parsed twoStagePlan) ∧
    (∃ p' ws,
      runUpdate (.parsed twoStagePlan) "plan.yaml" "validation"
        ⟨true, true, some []⟩ "t1" = .ok (p', ws) ∧
      (updateStage (.parsed twoStagePlan) "plan.yaml" "validation"
        ⟨true, true, some []⟩ "t1").1.success = true ∧
      (objGet p'.progress "validation").isSome = true) := by
  have h := c10_absent_target_stage twoStagePlan "plan.yaml" "validation"
    true "t1" rfl
  exact ⟨h.1, h.2 []
    [forcingJumpWarning "validation"
      ["scope_analysis", "context_gathering"]] rfl rfl rfl rfl rfl rfl
    (by decide)⟩

/-- C10 counterexample: on `scopePlan` (incomplete `scope_analysis`,
target `solution_design` absent from progress), the call WITH
`sectionData` still fails — the stage-order validation rejects the jump —
so the claim's "the same call with any sectionData succeeds in creating
the entry" is false as stated. -/
theorem c10_counterexample :
    objGet (normalizePlan scopePlan).progress "solution_design" = none ∧
    (updateStage (.parsed scopePlan) "plan.yaml" "solution_design"
      ⟨false, true, some []⟩ "t1").1.success = false ∧
    (updateStage (.parsed scopePlan) "plan.yaml" "solution_design"
      ⟨false, true, some []⟩ "t1").1.error =
      some (stageOrderMsg "solution_design" ["scope_analysis"]) := by
  exact ⟨rfl, rfl, rfl⟩

/-- C9 (amended): on a plan whose stage holds an array checklist, when the
pattern matches at least one item, `update_checklist_item` updates exactly
the items whose task is a non-empty string containing the pattern
case-insensitively (an empty task string is falsy and is skipped by the
`item.task &&` guard, so "contains the pattern" alone is not enough) — all
matches, not just the first — leaves the other items unchanged, reports
the number of items updated in its success text, and persists the record;
when zero items match it reports no-match and persists nothing. -/
theorem c9_checklist_pattern_update (rp : RawPlan)
    (pf stage pattern : String) (complete : Bool) (newTask : Option String)
    (now : String) (prog : List (String × Obj)) (sp : Obj)
    (items : List Value)
    (hprog : rp.progress = some prog)
    (hstage : objGet prog stage = some sp)
    (hcl : objGet sp "checklist" = some (.vArr items)) :
    ((items.filter (checklistMatch pattern)).length = 0 →
      updateChecklistItem (.parsed rp) pf stage pattern complete newTask now =
        (.text (noMatchMsg pattern), .parsed rp)) ∧
    ((items.filter (checklistMatch pattern)).length > 0 →
      updateChecklistItem (.parsed rp) pf stage pattern complete newTask now =
        (.text (checklistSuccessMsg
            (items.filter (checklistMatch pattern)).length stage pf pattern
            complete newTask now),
         .parsed { rp with
            progress := some (setKey prog stage (setKey sp "checklist"
              (.vArr (items.map (fun it =>
                if checklistMatch pattern it then
                  updateItem complete newTask it
                else it)))))
            updated := some (.vStr now) })) ∧
    (∀ it, checklistMatch pattern it = true ↔
      ∃ t, itemTask it = some (.vStr t) ∧ t ≠ "" ∧
        strIncludes (jsLowerStr t) (jsLowerStr pattern) = true) ∧
    (∀ fs, ∃ fs', updateItem complete newTask (.vObj fs) = .vObj fs' ∧
      objGet fs' "complete" = some (.vBool complete) ∧
      (∀ k, k ≠ "complete" → k ≠ "task" → objGet fs' k = objGet fs k) ∧
      (newTask = none → objGet fs' "task" = objGet fs "task") ∧
      (∀ t, newTask = some t → t ≠ "" →
        objGet fs' "task" = some (.vStr t))) := by
  refine ⟨?_, ?_, ?_, ?_⟩
  · intro hz
    unfold updateChecklistItem
    dsimp only
    rw [hprog]
    dsimp only
    rw [hstage]
    dsimp only
    rw [hcl]
    dsimp only
    rw [if_pos hz]
  · intro hp
    unfold updateChecklistItem
    dsimp only
    rw [hprog]
    dsimp only
    rw [hstage]
    dsimp only
    rw [hcl]
    dsimp only
    rw [if_neg (by omega)]
  · intro it
    unfold checklistMatch
    cases hti : itemTask it with
    | none => simp
    | some v =>
        cases v with
        | vStr t =>
            simp only [Bool.and_eq_true, decide_eq_true_eq]
            constructor
            · rintro ⟨hne, hinc⟩
              exact ⟨t, rfl, hne, hinc⟩
            · rintro ⟨t', ht', hne, hinc⟩
              injection ht' with ht'
              injection ht' with ht'
              subst ht'
              exact ⟨hne, hinc⟩
        | vNull => simp
        | vBool b => simp
        | vNum n => simp
        | vArr xs => simp
        | vObj fs => simp
  · intro fs
    unfold updateItem
    cases hnt : newTask with
    | none =>
        refine ⟨setKey fs "complete" (.vBool complete), rfl,
          objGet_setKey_self _ _ _, ?_, ?_, ?_⟩
        · intro k hk1 _
          exact objGet_setKey_ne _ _ _ _ hk1
        · intro _
          exact objGet_setKey_ne _ _ _ _ (by decide)
        · intro t ht
          exact absurd ht (by simp)
    | some t =>
        dsimp only
        by_cases he : t = ""
        · rw [if_pos he]
          refine ⟨setKey fs "complete" (.vBool complete), rfl,
            objGet_setKey_self _ _ _, ?_, ?_, ?_⟩
          · intro k hk1 _
            exact objGet_setKey_ne _ _ _ _ hk1
          · intro hn
            exact absurd hn (by simp)
          · intro t' ht' hne
            injection ht' with ht'
            subst ht'
            exact absurd he hne
        · rw [if_neg he]
          refine ⟨setKey (setKey fs "complete" (.vBool complete)) "task"
              (.vStr t), rfl, ?_, ?_, ?_, ?_⟩
          · rw [objGet_setKey_ne _ _ _ _ (by decide)]
            exact objGet_setKey_self _ _ _
          · intro k hk1 hk2
            rw [objGet_setKey_ne _ _ _ _ hk2, objGet_setKey_ne _ _ _ _ hk1]
          · intro hn
            exact absurd hn (by simp)
          · intro t' ht' _
            injection ht' with ht'
            subst ht'
            exact objGet_setKey_self _ _ _

/-- C9 witness: a pattern matching two of three items updates both,
reports count 2, and persists the rewritten checklist. -/
theorem c9_witness :
    (([.vObj [("task", .vStr "Write tests"), ("complete", .vBool false)],
       .vObj [("task", .vStr "write docs"), ("complete", .vBool false)],
       .vObj [("task", .vStr "deploy"), ("complete", .vBool false)]] :
        List Value).filter (checklistMatch "write")).length = 2 ∧
    updateChecklistItem (.parsed checklistPlan) "plan.yaml" "solution_design"
        "write" true none "t1" =
      (.text (checklistSuccessMsg
          (([.vObj [("task", .vStr "Write tests"), ("complete", .vBool false)],
             .vObj [("task", .vStr "write docs"), ("complete", .vBool false)],
             .vObj [("task", .vStr "deploy"), ("complete", .vBool false)]] :
              List Value).filter (checklistMatch "write")).length
          "solution_design" "plan.yaml" "write" true none "t1"),
       .parsed { checklistPlan with
          progress := some (setKey
            [("solution_design",
              [("complete", .vBool false), ("artifacts", .vObj []),
               ("checklist", .vArr
                 [.vObj [("task", .vStr "Write tests"),
                    ("complete", .vBool false)],
                  .vObj [("task", .vStr "write docs"),
                    ("complete", .vBool false)],
                  .vObj [("task", .vStr "deploy"),
                    ("complete", .vBool false)]])])]
            "solution_design"
            (setKey
              [("complete", .vBool false), ("artifacts", .vObj []),
               ("checklist", .vArr
                 [.vObj [("task", .vStr "Write tests"),
                    ("complete", .vBool false)],
                  .vObj [("task", .vStr "write docs"),
                    ("complete", .vBool false)],
                  .vObj [("task", .vStr "deploy"),
                    ("complete", .vBool false)]])]
              "checklist"
              (.vArr
                ([.vObj [("task", .vStr "Write tests"),
                    ("complete", .vBool false)],
                  .vObj [("task", .vStr "write docs"),
                    ("complete", .vBool false)],
                  .vObj [("task", .vStr "deploy"),
                    ("complete", .vBool false)]].map (fun it =>
                  if checklistMatch "write" it then updateItem true none it
                  else it)))))
          updated := some (.vStr "t1") }) := by
  constructor
  · decide
  · exact (c9_checklist_pattern_update checklistPlan "plan.yaml"
      "solution_design" "write" true none "t1" _ _ _ rfl rfl rfl).2.1
      (by decide)

/-- C9 counterexample: with the empty pattern, the item whose task is the
empty string satisfies the claim's "task contains the pattern
case-insensitively" but is NOT updated (the `item.task &&` truthiness
guard skips it), while the other item is updated and the reported count is
1 — so "exactly the items whose task contains the pattern" is false as
stated. -/
theorem c9_counterexample :
    specChecklistMatch ""
      (.vObj [("task", .vStr ""), ("complete", .vBool false)]) = true ∧
    checklistMatch ""
      (.vObj [("task", .vStr ""), ("complete", .vBool false)]) = false ∧
    storedStageField
      (updateChecklistItem (.parsed emptyTaskPlan) "plan.yaml"
        "solution_design" "" true none "t1").2
      "solution_design" "checklist" =
      some (.vArr
        [.vObj [("task", .vStr ""), ("complete", .vBool false)],
         .vObj [("task", .vStr "a"), ("complete", .vBool true)]]) := by
  exact ⟨rfl, rfl, rfl⟩
